import Mathlib

/-!
Verification of the kaykay graph state engine (`src/lib/stores/flow.svelte.ts`).

The development shallowly embeds the `FlowState` class in Lean: JavaScript
numbers are modelled as `ℚ` (the operations below use only exact arithmetic),
objects as structures, `Set<string>` as `Finset String`, `undefined`-able
fields as `Option`, and the `Record<string, HandleState>` handle registry as an
association list keyed by the composite string `"node_id:handle_id"`.
Recursive walks over the `parent_id` hierarchy (`getAbsolutePosition`,
`isDescendantOf`, `removeNodeInternal`) are structurally recursive in the
source only when the parent graph is acyclic; they are embedded with an
explicit fuel argument, and the canonical wrappers pass a fuel that strictly
exceeds the length of every parent chain of an acyclic graph, so on acyclic
graphs the wrappers compute exactly what the source computes (where the source
diverges, the fuelled versions return a junk value instead).

External callbacks (`on_connect`, `on_delete`, `on_undo`, `on_redo`) are
modelled by appending to an event log, so "the notification is invoked" is an
observable fact about the resulting state.
-/

namespace Kaykay

/-- A point `{x, y}` in canvas coordinates. -/
@[ext]
structure Position where
  x : ℚ
  y : ℚ
deriving DecidableEq, Repr

instance : Add Position := ⟨fun a b => ⟨a.x + b.x, a.y + b.y⟩⟩

instance : Sub Position := ⟨fun a b => ⟨a.x - b.x, a.y - b.y⟩⟩

/-- Edge rendering type (`'bezier' | 'straight' | 'step'`). -/
inductive EdgeType where
  | bezier
  | straight
  | step
deriving DecidableEq, Repr

/-- Edge stroke style (`'solid' | 'dashed' | 'dotted'`). -/
inductive EdgeStyle where
  | solid
  | dashed
  | dotted
deriving DecidableEq, Repr

/-- Handle direction (`'input' | 'output'`). -/
inductive HandleType where
  | input
  | output
deriving DecidableEq, Repr

/-- Which side of the node a handle sits on. -/
inductive HandlePosition where
  | left
  | right
  | top
  | bottom
deriving DecidableEq, Repr

/-- The authored (persisted) fields of a node, exactly the shape produced by
`toJSON` and consumed by `fromJSON`.  The opaque `data` payload is modelled as
an association list of string entries. -/
structure FlowNode where
  id : String
  type : String
  position : Position
  data : List (String × String)
  width : Option ℚ
  height : Option ℚ
  parent_id : Option String
  z_index : Option Int
deriving DecidableEq, Repr

/-- Runtime node state: the authored fields plus the measured dimensions
(`computed_width`/`computed_height`).  The per-node `handles` map of the
source is a mirror of the reactive `handle_registry` (every read goes through
the registry), so only the registry is modelled. -/
structure NodeState where
  id : String
  type : String
  position : Position
  data : List (String × String)
  width : Option ℚ
  height : Option ℚ
  parent_id : Option String
  z_index : Option Int
  computed_width : ℚ
  computed_height : ℚ
deriving DecidableEq, Repr

/-- The authored fields of an edge, exactly the shape produced by `toJSON`. -/
structure FlowEdge where
  id : String
  source : String
  source_handle : String
  target : String
  target_handle : String
  type : Option EdgeType
  label : Option String
  waypoints : Option (List Position)
  style : Option EdgeStyle
  animated : Option Bool
  color : Option String
deriving DecidableEq, Repr

/-- A serialized snapshot `{nodes, edges}`: the export/import, clipboard and
history interchange format. -/
structure Flow where
  nodes : List FlowNode
  edges : List FlowEdge
deriving DecidableEq, Repr

/-- A registered handle (`HandleState`): definition fields plus the measured
absolute position. -/
structure HandleState where
  id : String
  type : HandleType
  port : String
  position : HandlePosition
  accept : Option (List String)
  label : Option String
  absolute_position : Position
deriving DecidableEq, Repr

/-- Flow configuration after the constructor has applied its defaults
(`min_zoom: 0.1, max_zoom: 4, snap_to_grid: false, grid_size: 10,
allow_delete: true, default_edge_type: 'bezier', locked: false`).
`max_history` is read with `?? 50` at its use site and is kept optional. -/
structure FlowConfig where
  min_zoom : ℚ
  max_zoom : ℚ
  snap_to_grid : Bool
  grid_size : ℚ
  allow_delete : Bool
  default_edge_type : Option EdgeType
  locked : Bool
  max_history : Option Int
deriving DecidableEq, Repr

/-- External callback invocations (`callbacks.on_connect`, `on_delete`,
`on_undo`, `on_redo`), recorded as events. -/
inductive FlowEvent where
  | connect (edge : FlowEdge)
  | deleted (node_ids : List String) (edge_ids : List String)
  | undo_performed
  | redo_performed
deriving DecidableEq, Repr

/-- Pan/zoom viewport. -/
structure Viewport where
  x : ℚ
  y : ℚ
  zoom : ℚ
deriving DecidableEq, Repr

/-- A JavaScript `Set` built from an iterable: membership testing plus
iteration in insertion order, i.e. a duplicate-free list keeping the first
occurrence of every element. -/
def jsSetFromArray : List String → List String
  | [] => []
  | a :: rest => a :: jsSetFromArray (rest.filter (fun b => decide (b ≠ a)))
termination_by l => l.length
decreasing_by
  simp only [List.length_cons]
  exact Nat.lt_succ_of_le (rest.length_filter_le _)

/-- The mutable state owned by the `FlowState` class: the fields read or
written by the operations verified below.  (Purely render-facing fields --
`handle_positions`, `draft_connection`, `selection_rect`, canvas dimensions --
take no part in the verified operations and are omitted.)  `Set<string>`
fields are duplicate-free lists in insertion order. -/
structure FlowState where
  nodes : List NodeState
  edges : List FlowEdge
  viewport : Viewport
  handle_registry : List (String × HandleState)
  selected_node_ids : List String
  selected_edge_ids : List String
  clipboard : Option Flow
  next_node_id : ℕ
  history_stack : List Flow
  redo_stack : List Flow
  is_restoring : Bool
  config : FlowConfig
  events : List FlowEvent
deriving DecidableEq

/-! ### List helpers shared by the operations -/

/-- `this.nodes.find((n) => n.id === node_id)` — the store's `getNode`. -/
def getNodeL : List NodeState → String → Option NodeState
  | [], _ => none
  | n :: rest, node_id => if n.id = node_id then some n else getNodeL rest node_id

/-- In-place mutation of the node object returned by `getNode`: the first
element of the list whose `id` matches is replaced by `f` applied to it. -/
def updateFirst (ns : List NodeState) (node_id : String) (f : NodeState → NodeState) :
    List NodeState :=
  match ns with
  | [] => []
  | n :: rest => if n.id = node_id then f n :: rest else n :: updateFirst rest node_id f

/-- First-match lookup in an association list (a `Record` with unique keys). -/
def lookupStr : List (String × HandleState) → String → Option HandleState
  | [], _ => none
  | kv :: rest, key => if kv.1 = key then some kv.2 else lookupStr rest key

/-! ### Hierarchy resolver

`getAbsolutePosition` and `isDescendantOf` recurse along the `parent_id`
chain; the source terminates exactly when that chain is finite (the acyclic
invariant).  They are embedded with a fuel argument; `chainFuel` below strictly
exceeds the length of every ancestor chain of an acyclic node list — with any
such fuel the fuelled functions compute the source's value (lemmas
`parentDepthFuel_stable`, `absolutePosFuel_stable` make the fuel-independence
precise), while on a cyclic chain, where the source diverges, exhausted fuel
yields `⟨0, 0⟩` / `false`. -/

/-- Fuel passed by the canonical wrappers; see the note above. -/
def chainFuel (ns : List NodeState) : ℕ := 2 * ns.length + 3

/-- `getAbsolutePosition`: a missing node resolves to the origin; a parentless
node to its stored position; otherwise the parent's absolute position plus the
node's relative position. -/
def absolutePosFuel (ns : List NodeState) : ℕ → String → Position
  | 0, _ => ⟨0, 0⟩
  | fuel + 1, node_id =>
    match getNodeL ns node_id with
    | none => ⟨0, 0⟩
    | some n =>
      match n.parent_id with
      | none => n.position
      | some p => absolutePosFuel ns fuel p + n.position

/-- Number of steps from a node to the top of its ancestor chain (`none` when
the fuel runs out, i.e. on a long-or-cyclic chain).  Not part of the source:
used to reason about chain lengths and fuel. -/
def parentDepthFuel (ns : List NodeState) : ℕ → String → Option ℕ
  | 0, _ => none
  | fuel + 1, node_id =>
    match getNodeL ns node_id with
    | none => some 0
    | some n =>
      match n.parent_id with
      | none => some 0
      | some p => (parentDepthFuel ns fuel p).map (· + 1)

/-- `isDescendantOf(node_id, potential_ancestor_id)`: walk up the parent chain
from `node_id` looking for the candidate ancestor. -/
def isDescendantFuel (ns : List NodeState) : ℕ → String → String → Bool
  | 0, _, _ => false
  | fuel + 1, node_id, anc =>
    match getNodeL ns node_id with
    | none => false
    | some n =>
      match n.parent_id with
      | none => false
      | some p => if p = anc then true else isDescendantFuel ns fuel p anc

/-- The parent graph induced by `parent_id` is acyclic: every node's ancestor
chain terminates (within `|nodes| + 1` steps, which suffices for any acyclic
chain of distinct nodes). -/
def Acyclic (ns : List NodeState) : Prop :=
  ∀ n ∈ ns, (parentDepthFuel ns (ns.length + 1) n.id).isSome

instance (ns : List NodeState) : Decidable (Acyclic ns) :=
  List.decidableBAll _ ns

/-- Canonical `getAbsolutePosition` on a state. -/
def getAbsolutePosition (s : FlowState) (node_id : String) : Position :=
  absolutePosFuel s.nodes (chainFuel s.nodes) node_id

/-- Canonical `isDescendantOf` on a state. -/
def isDescendantOf (s : FlowState) (node_id potential_ancestor_id : String) : Bool :=
  isDescendantFuel s.nodes (chainFuel s.nodes) node_id potential_ancestor_id

/-! ### Serialization (`toJSON` / `fromJSON`) -/

/-- The node part of `toJSON`: project a runtime node to its authored fields. -/
def nodeToFlow (n : NodeState) : FlowNode :=
  { id := n.id
    type := n.type
    position := ⟨n.position.x, n.position.y⟩
    data := n.data
    width := n.width
    height := n.height
    parent_id := n.parent_id
    z_index := n.z_index }

/-- The edge part of `toJSON`: the authored fields, with waypoints copied. -/
def edgeSerialize (e : FlowEdge) : FlowEdge :=
  { id := e.id
    source := e.source
    source_handle := e.source_handle
    target := e.target
    target_handle := e.target_handle
    type := e.type
    label := e.label
    waypoints := e.waypoints.map (fun ws => ws.map (fun wp => ⟨wp.x, wp.y⟩))
    style := e.style
    animated := e.animated
    color := e.color }

/-- `toJSON()`: serialize the current graph to a snapshot. -/
def toJSON (s : FlowState) : Flow :=
  { nodes := s.nodes.map nodeToFlow
    edges := s.edges.map edgeSerialize }

/-- Hydrating a loaded node: `{...node, handles: new Map(), computed_width:
node.width ?? 0, computed_height: node.height ?? 0}`. -/
def flowNodeToState (n : FlowNode) : NodeState :=
  { id := n.id
    type := n.type
    position := n.position
    data := n.data
    width := n.width
    height := n.height
    parent_id := n.parent_id
    z_index := n.z_index
    computed_width := n.width.getD 0
    computed_height := n.height.getD 0 }

/-- `parseInt(str, 10)`: skip leading whitespace, an optional sign, then a
maximal run of decimal digits; `none` models `NaN`. -/
def jsParseInt (str : String) : Option Int :=
  let digitsVal : List Char → Option Int := fun cs =>
    match cs.takeWhile Char.isDigit with
    | [] => none
    | ds => some (ds.foldl (fun a c => 10 * a + (Int.ofNat c.toNat - 48)) 0)
  match str.data.dropWhile Char.isWhitespace with
  | '-' :: rest => (digitsVal rest).map (fun v => -v)
  | '+' :: rest => digitsVal rest
  | rest => digitsVal rest

/-- `initializeNextNodeId()`: one more than the largest numeric node id. -/
def initializeNextNodeId (ns : List NodeState) : ℕ :=
  let max_id : Int := ns.foldl
    (fun max_id n =>
      match jsParseInt n.id with
      | some num => if max_id < num then num else max_id
      | none => max_id)
    0
  (max_id + 1).toNat

/-- `fromJSON(flow)`: replace nodes/edges, clear the selection, recompute the
id counter, and (outside of a history restore) clear both history stacks. -/
def fromJSON (s : FlowState) (flow : Flow) : FlowState :=
  { s with
    nodes := flow.nodes.map flowNodeToState
    edges := flow.edges
    selected_node_ids := []
    selected_edge_ids := []
    next_node_id := initializeNextNodeId (flow.nodes.map flowNodeToState)
    history_stack := if s.is_restoring then s.history_stack else []
    redo_stack := if s.is_restoring then s.redo_stack else [] }

/-! ### History manager -/

/-- JavaScript `Array.prototype.slice` with a single integer argument:
`slice(k)` for `k ≥ 0` drops the first `k` elements; for `k < 0` it keeps the
last `-k` elements.  (`slice(-0)` is `slice(0)`: the whole array.) -/
def jsSlice (l : List Flow) (k : Int) : List Flow :=
  if k < 0 then l.drop (l.length - (-k).toNat) else l.drop k.toNat

/-- `pushSnapshot()`: no-op while `is_restoring`; otherwise append the current
serialized graph to `history_stack = [...history_stack.slice(-(max_history -
1)), snapshot]` and clear the redo stack. -/
def pushSnapshot (s : FlowState) : FlowState :=
  if s.is_restoring then s
  else
    let snapshot := toJSON s
    let max_history : Int := s.config.max_history.getD 50
    { s with
      history_stack := jsSlice s.history_stack (-(max_history - 1)) ++ [snapshot]
      redo_stack := [] }

/-- `restoreFromSnapshot(flow)`: replace nodes/edges wholesale, clear the
selection, recompute the id counter; the history stacks are untouched. -/
def restoreFromSnapshot (s : FlowState) (flow : Flow) : FlowState :=
  { s with
    nodes := flow.nodes.map flowNodeToState
    edges := flow.edges
    selected_node_ids := []
    selected_edge_ids := []
    next_node_id := initializeNextNodeId (flow.nodes.map flowNodeToState) }

/-- `undo()`: no-op (returning `false`) on an empty undo stack; otherwise push
the current serialized state onto the redo stack, pop and restore the most
recent undo snapshot under the `is_restoring` guard, and fire `on_undo`. -/
def undo (s : FlowState) : Bool × FlowState :=
  match s.history_stack.getLast? with
  | none => (false, s)
  | some previous =>
    let current := toJSON s
    let s1 :=
      { s with
        is_restoring := true
        redo_stack := s.redo_stack ++ [current]
        history_stack := s.history_stack.dropLast }
    let s2 := restoreFromSnapshot s1 previous
    (true, { s2 with is_restoring := false, events := s2.events ++ [FlowEvent.undo_performed] })

/-- `redo()`: the mirror of `undo`. -/
def redo (s : FlowState) : Bool × FlowState :=
  match s.redo_stack.getLast? with
  | none => (false, s)
  | some next =>
    let current := toJSON s
    let s1 :=
      { s with
        is_restoring := true
        history_stack := s.history_stack ++ [current]
        redo_stack := s.redo_stack.dropLast }
    let s2 := restoreFromSnapshot s1 next
    (true, { s2 with is_restoring := false, events := s2.events ++ [FlowEvent.redo_performed] })

/-! ### Grouping: `setNodeParent` -/

/-- `setNodeParentInternal(node_id, parent_id)`: no-op on a missing node or
when the candidate parent is a descendant of the node (the cycle guard);
otherwise re-express `position` relative to the new parent (computed from
absolute positions), or as absolute when the parent is removed, and update
`parent_id`. -/
def setNodeParentInternal (s : FlowState) (node_id : String) (parent_id : Option String) :
    FlowState :=
  match getNodeL s.nodes node_id with
  | none => s
  | some node =>
    let assign : Position → FlowState := fun new_position =>
      { s with
        nodes := updateFirst s.nodes node_id
          (fun n => { n with position := new_position, parent_id := parent_id }) }
    match parent_id with
    | some p =>
      if isDescendantOf s p node_id then s
      else assign (getAbsolutePosition s node_id - getAbsolutePosition s p)
    | none =>
      if node.parent_id.isSome then assign (getAbsolutePosition s node_id)
      else assign node.position

/-- `setNodeParent(node_id, parent_id)`: push a history snapshot, then apply
the internal reparent. -/
def setNodeParent (s : FlowState) (node_id : String) (parent_id : Option String) : FlowState :=
  setNodeParentInternal (pushSnapshot s) node_id parent_id

/-! ### Connection validation and `addEdge` -/

/-- `getHandle(node_id, handle_id)`: a lookup in the reactive registry keyed by
the composite string `"node_id:handle_id"`. -/
def getHandle (s : FlowState) (node_id handle_id : String) : Option HandleState :=
  lookupStr s.handle_registry (node_id ++ ":" ++ handle_id)

/-- `canConnectPorts`: exact port-type match, or membership in the target's
`accept` array. -/
def canConnectPorts (source_port target_port : String) (target_accept : Option (List String)) :
    Bool :=
  if source_port = target_port then true
  else
    match target_accept with
    | some accepted => decide (source_port ∈ accepted)
    | none => false

/-- `canConnect`: no self-loops, both handles registered, direction
output→input, then the port-type check. -/
def canConnect (s : FlowState) (source_node_id source_handle_id target_node_id
    target_handle_id : String) : Bool :=
  if source_node_id = target_node_id then false
  else
    match getHandle s source_node_id source_handle_id,
        getHandle s target_node_id target_handle_id with
    | some source_handle, some target_handle =>
      if source_handle.type ≠ HandleType.output ∨ target_handle.type ≠ HandleType.input then
        false
      else canConnectPorts source_handle.port target_handle.port target_handle.accept
    | _, _ => false

/-- `addEdge(edge)`: validate, reject duplicates, then snapshot, append the
edge with the render type defaulted from configuration, and fire
`on_connect`.  Returns the success boolean together with the new state. -/
def addEdge (s : FlowState) (edge : FlowEdge) : Bool × FlowState :=
  if !canConnect s edge.source edge.source_handle edge.target edge.target_handle then
    (false, s)
  else if s.edges.any (fun e =>
      decide (e.source = edge.source ∧ e.source_handle = edge.source_handle ∧
        e.target = edge.target ∧ e.target_handle = edge.target_handle)) then
    (false, s)
  else
    let s1 := pushSnapshot s
    (true,
      { s1 with
        edges := s1.edges ++ [{ edge with type := edge.type.orElse fun _ => s.config.default_edge_type }]
        events := s1.events ++ [FlowEvent.connect edge] })

/-! ### Node position updates -/

/-- The optional grid snapping of `updateNodePosition`: when `snap_to_grid`
is set and `grid_size` is truthy (non-zero), round each coordinate to the
nearest grid cell (`Math.round(v / grid_size) * grid_size`). -/
def gridSnap (c : FlowConfig) (p : Position) : Position :=
  if c.snap_to_grid ∧ c.grid_size ≠ 0 then
    ⟨(round (p.x / c.grid_size) : ℚ) * c.grid_size, (round (p.y / c.grid_size) : ℚ) * c.grid_size⟩
  else p

/-- `updateNodePosition(node_id, position)`: store the (possibly snapped)
position on the matching node; no history snapshot is taken. -/
def updateNodePosition (s : FlowState) (node_id : String) (position : Position) : FlowState :=
  match getNodeL s.nodes node_id with
  | none => s
  | some _ =>
    { s with
      nodes := updateFirst s.nodes node_id
        (fun n => { n with position := gridSnap s.config position }) }

/-! ### Deletion -/

/-- `removeEdgeInternal(edge_id)`: drop the edge and prune the edge
selection. -/
def removeEdgeInternal (s : FlowState) (edge_id : String) : FlowState :=
  { s with
    edges := s.edges.filter (fun e => decide (e.id ≠ edge_id))
    selected_edge_ids := s.selected_edge_ids.erase edge_id }

/-- `removeNodeInternal(node_id)`: recursively remove all child nodes first,
then every edge touching the node, the node itself, and its selection entry.
The recursion over children is fuelled (the source recurses along the group
tree, which is finite exactly when the parent graph is acyclic). -/
def removeNodeInternalFuel : ℕ → FlowState → String → FlowState
  | 0, s, _ => s
  | fuel + 1, s, node_id =>
    let children := (s.nodes.filter (fun n => decide (n.parent_id = some node_id))).map (·.id)
    let s1 := children.foldl (removeNodeInternalFuel fuel) s
    { s1 with
      edges := s1.edges.filter (fun e => decide (e.source ≠ node_id ∧ e.target ≠ node_id))
      nodes := s1.nodes.filter (fun n => decide (n.id ≠ node_id))
      selected_node_ids := s1.selected_node_ids.erase node_id }

/-- Canonical `removeNodeInternal`: the group tree of an acyclic graph has
depth at most `|nodes|`. -/
def removeNodeInternal (s : FlowState) (node_id : String) : FlowState :=
  removeNodeInternalFuel (s.nodes.length + 1) s node_id

/-- `deleteSelected()`: rejected when deletion is disallowed or the engine is
locked; otherwise snapshot, remove every selected node (with cascades) and
edge, and fire `on_delete`. -/
def deleteSelected (s : FlowState) : FlowState :=
  if !s.config.allow_delete || s.config.locked then s
  else
    let node_ids := s.selected_node_ids
    let edge_ids := s.selected_edge_ids
    if node_ids.isEmpty && edge_ids.isEmpty then s
    else
      let s1 := pushSnapshot s
      let s2 := node_ids.foldl removeNodeInternal s1
      let s3 := edge_ids.foldl removeEdgeInternal s2
      { s3 with events := s3.events ++ [FlowEvent.deleted node_ids edge_ids] }

/-! ### Clipboard engine: id generation and `paste` -/

/-- The search loop of `generateNodeId`: starting from the candidate counter
value, skip every decimal string already used as a node id.  `String(n)` for a
natural `n` is `Nat.repr`.  The loop is fuelled; `|nodes| + 1` candidates
always contain a free one (see `firstFreeId_not_mem`). -/
def firstFreeId (ids : List String) : ℕ → ℕ → ℕ
  | 0, candidate => candidate
  | fuel + 1, candidate =>
    if Nat.repr candidate ∈ ids then firstFreeId ids fuel (candidate + 1) else candidate

/-- `generateNodeId()`: return the first unused decimal id at or above the
counter, and advance the counter past it. -/
def generateNodeId (s : FlowState) : String × FlowState :=
  let k := firstFreeId (s.nodes.map (·.id)) (s.nodes.length + 1) s.next_node_id
  (Nat.repr k, { s with next_node_id := k + 1 })

/-- The id-generating pass of `paste`: for each clipboard node, in order, draw
a fresh id from `generateNodeId`, building the old→new id map. -/
def genIds (s : FlowState) : List FlowNode → FlowState × List (String × String)
  | [] => (s, [])
  | node :: rest =>
    let step := generateNodeId s
    let next := genIds step.2 rest
    (next.1, (node.id, step.1) :: next.2)

/-- `Map.get` on the old→new id map: `Map.set` overwrites, so the last binding
of a key wins. -/
def jsMapGet (m : List (String × String)) (key : String) : Option String :=
  (m.reverse.find? (fun kv => decide (kv.1 = key))).map (·.2)

/-- The top-level clipboard nodes: those whose original parent, if any, is not
itself in the copied set. -/
def topLevelNodes (data : Flow) : List FlowNode :=
  data.nodes.filter (fun n =>
    match n.parent_id with
    | none => true
    | some p => decide (p ∉ data.nodes.map FlowNode.id))

/-- The paste translation: target point minus the bounding-box center of the
top-level clipboard nodes' positions.  (With no top-level node the source
computes `NaN` coordinates from empty `Infinity` bounds; that degenerate case
is modelled by the `getD 0` defaults.) -/
def pasteOffset (data : Flow) (paste_pos : Position) : Position :=
  let tl := topLevelNodes data
  let min_x := (tl.map (fun n => n.position.x)).min?.getD 0
  let min_y := (tl.map (fun n => n.position.y)).min?.getD 0
  let max_x := (tl.map (fun n => n.position.x)).max?.getD 0
  let max_y := (tl.map (fun n => n.position.y)).max?.getD 0
  ⟨paste_pos.x - (min_x + max_x) / 2, paste_pos.y - (min_y + max_y) / 2⟩

/-- The node-copying pass of `paste`: pair every clipboard node with its fresh
id, keep the relative position of nodes whose parent is also in the clipboard
and translate the rest by the offset, and remap `parent_id` through the id map
(clearing it when the parent was not copied). -/
def pasteNewNodes (data : Flow) (offset : Position) (id_map : List (String × String)) :
    List FlowNode :=
  (data.nodes.zip (id_map.map Prod.snd)).map fun nz =>
    { nz.1 with
      id := nz.2
      position :=
        match nz.1.parent_id with
        | some p =>
          if p ∈ data.nodes.map FlowNode.id then ⟨nz.1.position.x, nz.1.position.y⟩
          else nz.1.position + offset
        | none => nz.1.position + offset
      parent_id := nz.1.parent_id.bind fun p => jsMapGet id_map p }

/-- The edge-copying pass of `paste`: remap both endpoints through the id map,
regenerate the edge id from the remapped endpoints, default the render type,
and translate waypoints by the offset.  (The source reads
`id_map.get(edge.source)!` with a non-null assertion; an endpoint absent from
the map is modelled by an empty-string fallback standing for `undefined`.) -/
def pasteNewEdges (data : Flow) (offset : Position) (id_map : List (String × String))
    (default_type : Option EdgeType) : List FlowEdge :=
  data.edges.map fun e =>
    let new_source := (jsMapGet id_map e.source).getD ""
    let new_target := (jsMapGet id_map e.target).getD ""
    { e with
      id := "e-" ++ new_source ++ "-" ++ e.source_handle ++ "-" ++ new_target ++ "-" ++
        e.target_handle
      source := new_source
      target := new_target
      type := e.type.orElse fun _ => default_type
      waypoints := e.waypoints.map fun ws => ws.map (· + offset) }

/-- `paste(position?, clipboard_data?)`: no-op on an empty clipboard or when
locked; otherwise snapshot, generate fresh ids for every copied node, insert
the copied nodes and re-instantiated edges, and select the new nodes. -/
def paste (s : FlowState) (position : Option Position := none)
    (clipboard_data : Option Flow := none) : FlowState :=
  match clipboard_data.orElse fun _ => s.clipboard with
  | none => s
  | some data =>
    if data.nodes.isEmpty then s
    else if s.config.locked then s
    else
      let s1 := pushSnapshot s
      let paste_pos := position.getD ⟨100, 100⟩
      let offset := pasteOffset data paste_pos
      let gen := genIds s1 data.nodes
      let s2 := gen.1
      let new_nodes := pasteNewNodes data offset gen.2
      let new_edges := pasteNewEdges data offset gen.2 s.config.default_edge_type
      { s2 with
        nodes := s2.nodes ++ new_nodes.map flowNodeToState
        edges := s2.edges ++ new_edges
        selected_node_ids := jsSetFromArray (new_nodes.map (·.id))
        selected_edge_ids := [] }

/-! ### Concrete states used as witnesses and counterexamples -/

/-- The configuration produced by the constructor with no overrides. -/
def cfg0 : FlowConfig :=
  { min_zoom := 1/10
    max_zoom := 4
    snap_to_grid := false
    grid_size := 10
    allow_delete := true
    default_edge_type := some EdgeType.bezier
    locked := false
    max_history := none }

/-- A freshly constructed empty store. -/
def state0 : FlowState :=
  { nodes := []
    edges := []
    viewport := ⟨0, 0, 1⟩
    handle_registry := []
    selected_node_ids := []
    selected_edge_ids := []
    clipboard := none
    next_node_id := 1
    history_stack := []
    redo_stack := []
    is_restoring := false
    config := cfg0
    events := [] }

/-- A plain node record with the given id, position and parent. -/
def mkNode (id : String) (pos : Position) (parent : Option String) : NodeState :=
  { id := id
    type := "default"
    position := pos
    data := []
    width := none
    height := none
    parent_id := parent
    z_index := none
    computed_width := 0
    computed_height := 0 }

/-- A state that looks exactly like the result of one undoable mutation from
`state0`: its undo stack ends with the snapshot of `state0`. -/
def C5post : FlowState :=
  { state0 with
    nodes := [mkNode "a" ⟨1, 1⟩ none]
    history_stack := [toJSON state0] }

/-- The empty snapshot. -/
def flow0 : Flow := ⟨[], []⟩

/-- A non-restoring state whose configured maximum history depth is `1` and
whose undo stack already holds one entry. -/
def C6state : FlowState :=
  { state0 with config := { cfg0 with max_history := some 1 }, history_stack := [flow0] }

/-- A locked but otherwise empty store. -/
def C3lockedState : FlowState := { state0 with config := { cfg0 with locked := true } }

/-- An output handle of port type `"x"` on node `"a"`. -/
def handleOut : HandleState :=
  { id := "o"
    type := HandleType.output
    port := "x"
    position := HandlePosition.right
    accept := none
    label := none
    absolute_position := ⟨0, 0⟩ }

/-- An input handle of port type `"x"` on node `"b"`. -/
def handleIn : HandleState :=
  { id := "i"
    type := HandleType.input
    port := "x"
    position := HandlePosition.left
    accept := none
    label := none
    absolute_position := ⟨0, 0⟩ }

/-- A locked store with a registered output handle `a:o` and input handle
`b:i`, both of port type `"x"`. -/
def C3state : FlowState :=
  { state0 with
    config := { cfg0 with locked := true }
    handle_registry := [("a:o", handleOut), ("b:i", handleIn)] }

/-- A valid edge request from `a:o` to `b:i`. -/
def C3edge : FlowEdge :=
  { id := "e1"
    source := "a"
    source_handle := "o"
    target := "b"
    target_handle := "i"
    type := none
    label := none
    waypoints := none
    style := none
    animated := none
    color := none }

/-- A store holding a single node `"b"` at `(7, 8)` whose parent id `"ghost"`
matches no node. -/
def C9state : FlowState := { state0 with nodes := [mkNode "b" ⟨7, 8⟩ (some "ghost")] }

/-- A store holding the single node `"a"` at `(1, 2)`. -/
def C10state : FlowState := { state0 with nodes := [mkNode "a" ⟨1, 2⟩ none] }

/-! ### The self-parent cycle (C1) -/

/-- A store holding the single parentless node `"a"` at `(5, 5)`. -/
def C1state : FlowState := { state0 with nodes := [mkNode "a" ⟨5, 5⟩ none] }

/-- An unlocked store with the registered handles `a:o` (output, port `"x"`)
and `b:i` (input, port `"x"`). -/
def C4state : FlowState :=
  { state0 with handle_registry := [("a:o", handleOut), ("b:i", handleIn)] }

/-- A self-loop edge request, rejected by validation. -/
def C4badEdge : FlowEdge := { C3edge with target := "a", target_handle := "o" }

/-- A store holding the single parentless node `"a"` at `(5, 5)`. -/
def C2state : FlowState := { state0 with nodes := [mkNode "a" ⟨5, 5⟩ none] }

/-- A store with a group `"g"` at `(10, 10)`, its child `"c"` at relative
`(5, 5)`, and an unrelated node `"h"` at `(1, 1)`. -/
def C2wit : FlowState :=
  { state0 with
    nodes := [mkNode "g" ⟨10, 10⟩ none, mkNode "c" ⟨5, 5⟩ (some "g"), mkNode "h" ⟨1, 1⟩ none] }

/-! ### Injectivity of the decimal id rendering (`String(n)` is `Nat.repr`) -/

/-- The decimal digit list of a natural number (the fuel-free specification of
core's `Nat.toDigits 10`). -/
def decRepr (n : ℕ) : List Char :=
  if _h : n < 10 then [Nat.digitChar n]
  else decRepr (n / 10) ++ [Nat.digitChar (n % 10)]
termination_by n
decreasing_by
  exact Nat.div_lt_self (by omega) (by omega)

/-- Left-fold decimal evaluation of a digit-character list. -/
def digitsVal (l : List Char) : ℕ :=
  l.foldl (fun a c => 10 * a + (c.toNat - 48)) 0

/-- A plain clipboard node record. -/
def mkFlowNode (id : String) (pos : Position) (parent : Option String) : FlowNode :=
  { id := id
    type := "default"
    position := pos
    data := []
    width := none
    height := none
    parent_id := parent
    z_index := none }

/-- The clipboard edge of the paste witness scenario. -/
def C8clipEdge : FlowEdge :=
  { id := "e0"
    source := "a"
    source_handle := "o"
    target := "b"
    target_handle := "i"
    type := none
    label := none
    waypoints := none
    style := none
    animated := none
    color := none }

/-- A clipboard holding two top-level nodes `"a"`, `"b"` and one edge between
them. -/
def C8clip : Flow :=
  { nodes := [mkFlowNode "a" ⟨0, 0⟩ none, mkFlowNode "b" ⟨4, 2⟩ none]
    edges := [C8clipEdge] }

/-- An unlocked store holding one node (with the numeric id `"1"`) and the
clipboard above. -/
def C8state : FlowState :=
  { state0 with nodes := [mkNode "1" ⟨0, 0⟩ none], clipboard := some C8clip }

theorem Position.add_def (a b : Position) : a + b = ⟨a.x + b.x, a.y + b.y⟩ := rfl

theorem Position.sub_def (a b : Position) : a - b = ⟨a.x - b.x, a.y - b.y⟩ := rfl

/-! ### Serialization lemmas -/

theorem nodeToFlow_flowNodeToState (n : FlowNode) : nodeToFlow (flowNodeToState n) = n := rfl

theorem edgeSerialize_eq (e : FlowEdge) : edgeSerialize e = e := by
  have h : e.waypoints.map (fun ws => ws.map fun wp => (⟨wp.x, wp.y⟩ : Position)) =
      e.waypoints := by
    cases e.waypoints with
    | none => rfl
    | some ws => exact congrArg some (List.map_id ws)
  unfold edgeSerialize
  rw [h]

/-- Serializing any state whose nodes and edges were hydrated from a snapshot
returns that snapshot. -/
theorem toJSON_hydrated (s : FlowState) (f : Flow)
    (hn : s.nodes = f.nodes.map flowNodeToState) (he : s.edges = f.edges) :
    toJSON s = f := by
  unfold toJSON
  rw [hn, he, List.map_map]
  have h1 : nodeToFlow ∘ flowNodeToState = id := funext fun _ => rfl
  have h2 : f.edges.map edgeSerialize = f.edges := by
    have : edgeSerialize = id := funext edgeSerialize_eq
    rw [this, List.map_id]
  rw [h1, List.map_id, h2]

theorem toJSON_restoreFromSnapshot (s : FlowState) (f : Flow) :
    toJSON (restoreFromSnapshot s f) = f :=
  toJSON_hydrated _ f rfl rfl

/-- Two states with the same nodes and edges serialize identically. -/
theorem toJSON_congr (s s' : FlowState) (hn : s'.nodes = s.nodes) (he : s'.edges = s.edges) :
    toJSON s' = toJSON s := by
  unfold toJSON
  rw [hn, he]

/-- C7.  For every snapshot `x` of authored fields, `fromJSON x` followed by
`toJSON` returns a structure equal to `x` in all authored node fields
(id, type, position, data, width, height, parent_id, z_index) and edge fields
(id, source, source_handle, target, target_handle, type, label, waypoints,
style, animated, color): the interchange format round-trips losslessly. -/
theorem C7_fromJSON_toJSON_roundtrip (s : FlowState) (x : Flow) :
    toJSON (fromJSON s x) = x :=
  toJSON_hydrated _ x rfl rfl

/-! ### History lemmas -/

theorem pushSnapshot_nodes (s : FlowState) : (pushSnapshot s).nodes = s.nodes := by
  unfold pushSnapshot; split <;> rfl

theorem pushSnapshot_edges (s : FlowState) : (pushSnapshot s).edges = s.edges := by
  unfold pushSnapshot; split <;> rfl

theorem pushSnapshot_config (s : FlowState) : (pushSnapshot s).config = s.config := by
  unfold pushSnapshot; split <;> rfl

theorem pushSnapshot_next_node_id (s : FlowState) :
    (pushSnapshot s).next_node_id = s.next_node_id := by
  unfold pushSnapshot; split <;> rfl

theorem pushSnapshot_selected_node_ids (s : FlowState) :
    (pushSnapshot s).selected_node_ids = s.selected_node_ids := by
  unfold pushSnapshot; split <;> rfl

theorem pushSnapshot_selected_edge_ids (s : FlowState) :
    (pushSnapshot s).selected_edge_ids = s.selected_edge_ids := by
  unfold pushSnapshot; split <;> rfl

theorem pushSnapshot_clipboard (s : FlowState) : (pushSnapshot s).clipboard = s.clipboard := by
  unfold pushSnapshot; split <;> rfl

theorem pushSnapshot_events (s : FlowState) : (pushSnapshot s).events = s.events := by
  unfold pushSnapshot; split <;> rfl

/-- C5.  Immediately after any single undoable mutation — i.e. from any state
whose undo stack ends with the snapshot of the pre-mutation state, as every
snapshot-then-mutate operation leaves it — `undo()` returns `true` and
restores the serialized graph to exactly that snapshot, and a following
`redo()` returns `true` and restores exactly the post-mutation serialized
graph; `undo()` on an empty undo stack and `redo()` on an empty redo stack
return `false` and change nothing. -/
theorem C5_undo_redo_roundtrip :
    (∀ (s_pre s_post : FlowState) (stack : List Flow),
      s_post.history_stack = stack ++ [toJSON s_pre] →
      (undo s_post).1 = true ∧
      toJSON (undo s_post).2 = toJSON s_pre ∧
      (redo (undo s_post).2).1 = true ∧
      toJSON (redo (undo s_post).2).2 = toJSON s_post) ∧
    (∀ s : FlowState, s.history_stack = [] → undo s = (false, s)) ∧
    (∀ s : FlowState, s.redo_stack = [] → redo s = (false, s)) := by
  refine ⟨?_, ?_, ?_⟩
  · intro s_pre s_post stack h
    have hu : undo s_post =
        (true,
          { restoreFromSnapshot
              { s_post with
                is_restoring := true
                redo_stack := s_post.redo_stack ++ [toJSON s_post]
                history_stack := s_post.history_stack.dropLast } (toJSON s_pre) with
            is_restoring := false
            events := (restoreFromSnapshot
              { s_post with
                is_restoring := true
                redo_stack := s_post.redo_stack ++ [toJSON s_post]
                history_stack := s_post.history_stack.dropLast } (toJSON s_pre)).events ++
              [FlowEvent.undo_performed] }) := by
      unfold undo
      rw [h, List.getLast?_concat]
    have hr : ((undo s_post).2).redo_stack = s_post.redo_stack ++ [toJSON s_post] := by
      rw [hu]
      rfl
    refine ⟨by rw [hu], ?_, ?_, ?_⟩
    · rw [hu]
      exact toJSON_hydrated _ _ rfl rfl
    · unfold redo
      rw [hr, List.getLast?_concat]
    · unfold redo
      rw [hr, List.getLast?_concat]
      exact toJSON_hydrated _ _ rfl rfl
  · intro s h
    unfold undo
    rw [h]
    rfl
  · intro s h
    unfold redo
    rw [h]
    rfl

/-- C6 (amended).  `pushSnapshot()` is a no-op while the history guard flag is
set; otherwise it appends the current serialized graph to the undo stack after
evicting entries from the front, keeping the stack within the configured
maximum depth provided that depth is at least `2` (the default is `50`; with a
configured depth of `1` the `slice(-0)` quirk keeps the whole stack, see the
counterexample), and clears the redo stack.  Undo/redo replay itself never
clears the redo stack: `undo` appends the current snapshot to it and `redo`
only pops the entry being replayed. -/
theorem C6_pushSnapshot_spec (s : FlowState) :
    (s.is_restoring = true → pushSnapshot s = s) ∧
    (s.is_restoring = false →
      (pushSnapshot s).redo_stack = [] ∧
      (∃ k, (pushSnapshot s).history_stack = s.history_stack.drop k ++ [toJSON s]) ∧
      (2 ≤ s.config.max_history.getD 50 →
        ((pushSnapshot s).history_stack.length : ℤ) ≤ s.config.max_history.getD 50)) ∧
    (s.history_stack ≠ [] → (undo s).2.redo_stack = s.redo_stack ++ [toJSON s]) ∧
    (s.history_stack = [] → (undo s).2.redo_stack = s.redo_stack) ∧
    (redo s).2.redo_stack = s.redo_stack.dropLast := by
  refine ⟨?_, ?_, ?_, ?_, ?_⟩
  · intro h
    unfold pushSnapshot
    rw [h]
    rfl
  · intro h
    unfold pushSnapshot
    rw [h]
    refine ⟨rfl, ?_, ?_⟩
    · show ∃ k, jsSlice s.history_stack _ ++ [toJSON s] = s.history_stack.drop k ++ [toJSON s]
      unfold jsSlice
      split
      · exact ⟨_, rfl⟩
      · exact ⟨_, rfl⟩
    · intro hm
      show ((jsSlice s.history_stack (-(s.config.max_history.getD 50 - 1)) ++
          [toJSON s]).length : ℤ) ≤ s.config.max_history.getD 50
      set m : ℤ := s.config.max_history.getD 50 with hm_def
      have hneg : -(m - 1) < 0 := by omega
      have h2 : - -(m - 1) = m - 1 := neg_neg _
      unfold jsSlice
      rw [if_pos hneg, List.length_append, List.length_singleton, h2]
      have hlen : (s.history_stack.drop
          (s.history_stack.length - (m - 1).toNat)).length ≤ (m - 1).toNat := by
        rw [List.length_drop]
        omega
      omega
  · intro h
    obtain ⟨f, hf⟩ := Option.isSome_iff_exists.mp (List.getLast?_isSome.mpr h)
    unfold undo
    rw [hf]
    rfl
  · intro h
    unfold undo
    rw [h]
    rfl
  · cases hlast : s.redo_stack.getLast? with
    | none =>
      have : s.redo_stack = [] := List.getLast?_eq_none_iff.mp hlast
      unfold redo
      rw [hlast, this]
      rfl
    | some f =>
      unfold redo
      rw [hlast]
      rfl

theorem C5_witness :
    (undo C5post).1 = true ∧ toJSON (undo C5post).2 = toJSON state0 ∧
    undo state0 = (false, state0) ∧ redo state0 = (false, state0) :=
  ⟨(C5_undo_redo_roundtrip.1 state0 C5post [] rfl).1,
   (C5_undo_redo_roundtrip.1 state0 C5post [] rfl).2.1,
   C5_undo_redo_roundtrip.2.1 state0 rfl,
   C5_undo_redo_roundtrip.2.2 state0 rfl⟩

theorem C6_witness :
    (pushSnapshot C5post).redo_stack = [] ∧
    ((pushSnapshot C5post).history_stack.length : ℤ) ≤ 50 :=
  ⟨((C6_pushSnapshot_spec C5post).2.1 rfl).1,
   ((C6_pushSnapshot_spec C5post).2.1 rfl).2.2 (by decide)⟩

/-- C6, counterexample.  With a configured maximum depth of `1`,
`pushSnapshot` evaluates `history_stack.slice(-(1 - 1)) = slice(-0)`, which is
the whole stack, so the new stack has length `2 > 1`: the undo stack exceeds
the configured maximum depth. -/
theorem C6_counterexample :
    C6state.config.max_history = some 1 ∧ C6state.is_restoring = false ∧
    ¬(((pushSnapshot C6state).history_stack.length : ℤ) ≤ C6state.config.max_history.getD 50) := by
  refine ⟨rfl, rfl, ?_⟩
  show ¬(((pushSnapshot C6state).history_stack.length : ℤ) ≤ 1)
  have h : (pushSnapshot C6state).history_stack.length = 2 := rfl
  rw [h]
  omega

/-! ### Locked mode (C3) -/

/-- C3 (amended).  Locked mode is checked by `deleteSelected` and `paste` at
the store boundary: both are complete no-ops whenever `config.locked` is set.
`addEdge` and `setNodeParent` do not consult the lock (for connecting and
reparenting the lock is enforced by the input layer before the store is
called), so invoked directly they still mutate a locked store — see the
counterexample. -/
theorem C3_locked_delete_paste_noop (s : FlowState) (position : Option Position)
    (clipboard_data : Option Flow) (h : s.config.locked = true) :
    deleteSelected s = s ∧ paste s position clipboard_data = s := by
  constructor
  · unfold deleteSelected
    rw [h]
    simp
  · unfold paste
    split
    · rfl
    · simp [h]

theorem C3_witness :
    deleteSelected C3lockedState = C3lockedState ∧
    paste C3lockedState none none = C3lockedState :=
  C3_locked_delete_paste_noop C3lockedState none none rfl

/-- C3, counterexample.  On a locked store, `addEdge` still succeeds and
appends an edge: connecting is not rejected at the mutation boundary, so the
claim that all four operations check locked mode is false. -/
theorem C3_counterexample :
    C3state.config.locked = true ∧ (addEdge C3state C3edge).1 = true ∧
    (addEdge C3state C3edge).2.edges ≠ C3state.edges := by decide

/-! ### Totality of `getAbsolutePosition` (C9) -/

theorem getNodeL_eq_none {ns : List NodeState} {node_id : String}
    (h : ∀ n ∈ ns, n.id ≠ node_id) : getNodeL ns node_id = none := by
  induction ns with
  | nil => rfl
  | cons m rest ih =>
    unfold getNodeL
    rw [if_neg (h m (List.mem_cons_self m rest))]
    exact ih fun n hn => h n (List.mem_cons_of_mem m hn)

/-- C9.  `getAbsolutePosition` is total: an id with no matching node resolves
to the origin `⟨0, 0⟩`, and consequently a node whose `parent_id` names a node
that no longer exists resolves to its stored relative position interpreted as
absolute. -/
theorem C9_getAbsolutePosition_total :
    (∀ (s : FlowState) (node_id : String), (∀ n ∈ s.nodes, n.id ≠ node_id) →
      getAbsolutePosition s node_id = ⟨0, 0⟩) ∧
    (∀ (s : FlowState) (n : NodeState) (p : String), getNodeL s.nodes n.id = some n →
      n.parent_id = some p → (∀ m ∈ s.nodes, m.id ≠ p) →
      getAbsolutePosition s n.id = n.position) := by
  constructor
  · intro s node_id h
    show absolutePosFuel s.nodes (2 * s.nodes.length + 3) node_id = ⟨0, 0⟩
    have e : 2 * s.nodes.length + 3 = (2 * s.nodes.length + 2) + 1 := rfl
    rw [e]
    simp only [absolutePosFuel, getNodeL_eq_none h]
  · intro s n p hfind hpar hmiss
    show absolutePosFuel s.nodes (2 * s.nodes.length + 3) n.id = n.position
    have e : 2 * s.nodes.length + 3 = (2 * s.nodes.length + 2) + 1 := rfl
    have e2 : 2 * s.nodes.length + 2 = (2 * s.nodes.length + 1) + 1 := rfl
    rw [e]
    simp only [absolutePosFuel, hfind, hpar, e2, getNodeL_eq_none hmiss]
    rw [Position.add_def]
    ext <;> simp

theorem C9_witness :
    getAbsolutePosition C9state "nope" = ⟨0, 0⟩ ∧
    getAbsolutePosition C9state "b" = ⟨7, 8⟩ := by
  constructor
  · exact C9_getAbsolutePosition_total.1 C9state "nope" (by decide)
  · exact C9_getAbsolutePosition_total.2 C9state (mkNode "b" ⟨7, 8⟩ (some "ghost")) "ghost"
      (by decide) rfl (by decide)

/-! ### Frame property of `updateNodePosition` (C10) -/

theorem updateFirst_spec (ns : List NodeState) (node_id : String) (f : NodeState → NodeState)
    (n : NodeState) (h : getNodeL ns node_id = some n) :
    ∃ j, ∃ hj : j < ns.length, ns.get ⟨j, hj⟩ = n ∧ n.id = node_id ∧
      updateFirst ns node_id f = ns.set j (f n) := by
  induction ns with
  | nil => exact absurd h (by simp [getNodeL])
  | cons m rest ih =>
    unfold getNodeL at h
    unfold updateFirst
    by_cases hm : m.id = node_id
    · rw [if_pos hm] at h ⊢
      injection h with h
      subst h
      exact ⟨0, Nat.succ_pos _, rfl, hm, rfl⟩
    · rw [if_neg hm] at h ⊢
      obtain ⟨j, hj, h1, h2, h3⟩ := ih h
      refine ⟨j + 1, Nat.succ_lt_succ hj, ?_, h2, ?_⟩
      · simpa using h1
      · rw [h3]
        rfl

/-- C10.  For a node present in the graph, `updateNodePosition` replaces only
that node's stored position (grid-snapped via `gridSnap` when snapping is
enabled with a non-zero grid size), leaving every other node, the edges, both
selections, the clipboard, the event log, and both history stacks unchanged —
in particular no history snapshot is pushed, so a bare position update is not
individually undoable. -/
theorem C10_updateNodePosition_frame (s : FlowState) (node_id : String) (position : Position)
    (n : NodeState) (h : getNodeL s.nodes node_id = some n) :
    (updateNodePosition s node_id position).edges = s.edges ∧
    (updateNodePosition s node_id position).selected_node_ids = s.selected_node_ids ∧
    (updateNodePosition s node_id position).selected_edge_ids = s.selected_edge_ids ∧
    (updateNodePosition s node_id position).history_stack = s.history_stack ∧
    (updateNodePosition s node_id position).redo_stack = s.redo_stack ∧
    (updateNodePosition s node_id position).clipboard = s.clipboard ∧
    (updateNodePosition s node_id position).events = s.events ∧
    (updateNodePosition s node_id position).config = s.config ∧
    ∃ j, ∃ hj : j < s.nodes.length, (s.nodes.get ⟨j, hj⟩).id = node_id ∧
      (updateNodePosition s node_id position).nodes =
        s.nodes.set j { s.nodes.get ⟨j, hj⟩ with position := gridSnap s.config position } := by
  unfold updateNodePosition
  rw [h]
  refine ⟨rfl, rfl, rfl, rfl, rfl, rfl, rfl, rfl, ?_⟩
  obtain ⟨j, hj, h1, h2, h3⟩ :=
    updateFirst_spec s.nodes node_id (fun m => { m with position := gridSnap s.config position })
      n h
  refine ⟨j, hj, ?_, ?_⟩
  · rw [h1]
    exact h2
  · rw [h3, h1]

theorem C10_witness :
    (updateNodePosition C10state "a" ⟨3, 4⟩).edges = C10state.edges ∧
    (updateNodePosition C10state "a" ⟨3, 4⟩).history_stack = C10state.history_stack :=
  ⟨(C10_updateNodePosition_frame C10state "a" ⟨3, 4⟩ (mkNode "a" ⟨1, 2⟩ none) (by decide)).1,
   (C10_updateNodePosition_frame C10state "a" ⟨3, 4⟩ (mkNode "a" ⟨1, 2⟩ none) (by decide)).2.2.2.1⟩

/-- C1, failing input.  In an acyclic graph `isDescendantOf(A, A)` is `false`
(the walk starts above `A`), so the cycle guard of `setNodeParent(A, A)` does
not fire: the call is accepted, sets `A.parent_id = A` — creating a self-cycle
on which the source's `getAbsolutePosition` diverges — and, like every
`setNodeParent` call including rejected ones, grows the undo stack.  This
contradicts the claim that such calls are rejected with no state change and
that acyclicity is preserved. -/
theorem C1_self_parent_cycle :
    isDescendantOf C1state "a" "a" = false ∧
    (getNodeL (setNodeParent C1state "a" (some "a")).nodes "a").map NodeState.parent_id =
      some (some "a") ∧
    isDescendantOf (setNodeParent C1state "a" (some "a")) "a" "a" = true ∧
    (setNodeParent C1state "a" (some "a")).history_stack.length =
      C1state.history_stack.length + 1 := by decide

/-! ### Connection validation (C4) -/

theorem canConnectPorts_iff (sp tp : String) (acc : Option (List String)) :
    canConnectPorts sp tp acc = true ↔ (sp = tp ∨ ∃ l, acc = some l ∧ sp ∈ l) := by
  unfold canConnectPorts
  split
  · simp_all
  · cases acc <;> simp_all

theorem canConnect_iff (s : FlowState) (a b c d : String) :
    canConnect s a b c d = true ↔
      (a ≠ c ∧
       ∃ sh, getHandle s a b = some sh ∧
       ∃ th, getHandle s c d = some th ∧
         sh.type = HandleType.output ∧ th.type = HandleType.input ∧
         (sh.port = th.port ∨ ∃ l, th.accept = some l ∧ sh.port ∈ l)) := by
  unfold canConnect
  by_cases hac : a = c
  · simp [hac]
  · rw [if_neg hac]
    cases hsh : getHandle s a b with
    | none => simp [hac]
    | some sh =>
      cases hth : getHandle s c d with
      | none => simp [hac]
      | some th =>
        show (if sh.type ≠ HandleType.output ∨ th.type ≠ HandleType.input then false
          else canConnectPorts sh.port th.port th.accept) = true ↔ _
        split
        · rename_i hdir
          simp only [Bool.false_eq_true, false_iff]
          intro ⟨_, sh', hsh', th', hth', hout, hin, _⟩
          injection hsh' with hsh'
          injection hth' with hth'
          subst hsh'
          subst hth'
          exact hdir.elim (fun hh => hh hout) (fun hh => hh hin)
        · rename_i hdir
          push_neg at hdir
          rw [canConnectPorts_iff]
          simp [hac, hdir.1, hdir.2]

/-- C4.  `addEdge` is total (it returns a boolean, never throws).  It returns
`true` — appending exactly one edge, namely the request with its render type
defaulted from configuration when absent, and firing the `on_connect`
notification — precisely when the source and target nodes differ, both
endpoint handles are registered, the source handle has direction `output` and
the target handle direction `input`, the port types match exactly or the
target's accept list contains the source port type, and no existing edge has
the same `(source, source_handle, target, target_handle)` tuple.  When it
returns `false` the state is completely unchanged. -/
theorem C4_addEdge_spec (s : FlowState) (e : FlowEdge) :
    ((addEdge s e).1 = true ↔
      ((e.source ≠ e.target ∧
        ∃ sh, getHandle s e.source e.source_handle = some sh ∧
        ∃ th, getHandle s e.target e.target_handle = some th ∧
          sh.type = HandleType.output ∧ th.type = HandleType.input ∧
          (sh.port = th.port ∨ ∃ l, th.accept = some l ∧ sh.port ∈ l)) ∧
       ¬∃ e2 ∈ s.edges, e2.source = e.source ∧ e2.source_handle = e.source_handle ∧
         e2.target = e.target ∧ e2.target_handle = e.target_handle)) ∧
    ((addEdge s e).1 = false → (addEdge s e).2 = s) ∧
    ((addEdge s e).1 = true →
      (addEdge s e).2.edges =
        s.edges ++ [{ e with type := e.type.orElse fun _ => s.config.default_edge_type }] ∧
      (addEdge s e).2.nodes = s.nodes ∧
      (addEdge s e).2.selected_node_ids = s.selected_node_ids ∧
      (addEdge s e).2.selected_edge_ids = s.selected_edge_ids ∧
      (addEdge s e).2.events = s.events ++ [FlowEvent.connect e]) := by
  have hdup_iff : (s.edges.any fun e2 => decide (e2.source = e.source ∧
      e2.source_handle = e.source_handle ∧ e2.target = e.target ∧
      e2.target_handle = e.target_handle)) = true ↔
      ∃ e2 ∈ s.edges, e2.source = e.source ∧ e2.source_handle = e.source_handle ∧
        e2.target = e.target ∧ e2.target_handle = e.target_handle := by
    simp [List.any_eq_true]
  cases hcc : canConnect s e.source e.source_handle e.target e.target_handle with
  | false =>
    have h1 : addEdge s e = (false, s) := by
      unfold addEdge
      rw [hcc]
      rfl
    rw [h1]
    refine ⟨?_, fun _ => rfl, by simp⟩
    rw [← canConnect_iff]
    simp [hcc]
  | true =>
    cases hdup : (s.edges.any fun e2 => decide (e2.source = e.source ∧
        e2.source_handle = e.source_handle ∧ e2.target = e.target ∧
        e2.target_handle = e.target_handle)) with
    | true =>
      have h1 : addEdge s e = (false, s) := by
        unfold addEdge
        rw [hcc, hdup]
        rfl
      rw [h1]
      refine ⟨?_, fun _ => rfl, by simp⟩
      have := hdup_iff.mp hdup
      simp only [Bool.false_eq_true, false_iff]
      intro ⟨_, hnodup⟩
      exact hnodup this
    | false =>
      have h1 : addEdge s e =
          (true,
            { pushSnapshot s with
              edges := (pushSnapshot s).edges ++
                [{ e with type := e.type.orElse fun _ => s.config.default_edge_type }]
              events := (pushSnapshot s).events ++ [FlowEvent.connect e] }) := by
        unfold addEdge
        rw [hcc, hdup]
        rfl
      rw [h1]
      refine ⟨?_, by simp, fun _ => ?_⟩
      · simp only [true_iff]
        refine ⟨(canConnect_iff s _ _ _ _).mp hcc, ?_⟩
        rw [← hdup_iff, hdup]
        simp
      · refine ⟨?_, ?_, ?_, ?_, ?_⟩
        · show (pushSnapshot s).edges ++ _ = _
          rw [pushSnapshot_edges]
        · exact pushSnapshot_nodes s
        · exact pushSnapshot_selected_node_ids s
        · exact pushSnapshot_selected_edge_ids s
        · show (pushSnapshot s).events ++ _ = _
          rw [pushSnapshot_events]

theorem C4_witness :
    (addEdge C4state C3edge).1 = true ∧ (addEdge C4state C4badEdge).2 = C4state :=
  ⟨(C4_addEdge_spec C4state C3edge).1.mpr
    ⟨⟨by decide, handleOut, by decide, handleIn, by decide, rfl, rfl, Or.inl rfl⟩, by decide⟩,
   (C4_addEdge_spec C4state C4badEdge).2.1 (by decide)⟩

/-! ### Fuel lemmas for the hierarchy resolver -/

theorem parentDepthFuel_succ (ns : List NodeState) (fuel : ℕ) (x : String) :
    parentDepthFuel ns (fuel + 1) x =
      match getNodeL ns x with
      | none => some 0
      | some n =>
        match n.parent_id with
        | none => some 0
        | some p => (parentDepthFuel ns fuel p).map (· + 1) := rfl

theorem absolutePosFuel_succ (ns : List NodeState) (fuel : ℕ) (x : String) :
    absolutePosFuel ns (fuel + 1) x =
      match getNodeL ns x with
      | none => ⟨0, 0⟩
      | some n =>
        match n.parent_id with
        | none => n.position
        | some p => absolutePosFuel ns fuel p + n.position := rfl

theorem isDescendantFuel_succ (ns : List NodeState) (fuel : ℕ) (x anc : String) :
    isDescendantFuel ns (fuel + 1) x anc =
      match getNodeL ns x with
      | none => false
      | some n =>
        match n.parent_id with
        | none => false
        | some p => if p = anc then true else isDescendantFuel ns fuel p anc := rfl

theorem getNodeL_mem {ns : List NodeState} {node_id : String} {n : NodeState}
    (h : getNodeL ns node_id = some n) : n ∈ ns ∧ n.id = node_id := by
  induction ns with
  | nil => exact absurd h (by simp [getNodeL])
  | cons m rest ih =>
    unfold getNodeL at h
    split at h
    · injection h with h
      subst h
      exact ⟨List.mem_cons_self _ _, by assumption⟩
    · obtain ⟨h1, h2⟩ := ih h
      exact ⟨List.mem_cons_of_mem _ h1, h2⟩

theorem parentDepthFuel_lt {ns : List NodeState} {f : ℕ} {x : String} {d : ℕ}
    (h : parentDepthFuel ns f x = some d) : d < f := by
  induction f generalizing x d with
  | zero => exact absurd h (by simp [parentDepthFuel])
  | succ f ih =>
    rw [parentDepthFuel_succ] at h
    cases hx : getNodeL ns x with
    | none =>
      simp only [hx] at h
      injection h with h
      omega
    | some n =>
      simp only [hx] at h
      cases hp : n.parent_id with
      | none =>
        simp only [hp] at h
        injection h with h
        omega
      | some p =>
        simp only [hp] at h
        obtain ⟨dq, hdq, hd⟩ := Option.map_eq_some'.mp h
        have := ih hdq
        omega

theorem parentDepthFuel_stable {ns : List NodeState} {f : ℕ} {x : String} {d : ℕ}
    (h : parentDepthFuel ns f x = some d) :
    ∀ g, d < g → parentDepthFuel ns g x = some d := by
  induction f generalizing x d with
  | zero => exact absurd h (by simp [parentDepthFuel])
  | succ f ih =>
    intro g hg
    cases g with
    | zero => omega
    | succ g =>
      rw [parentDepthFuel_succ] at h
      rw [parentDepthFuel_succ]
      cases hx : getNodeL ns x with
      | none =>
        simp only [hx] at h ⊢
        exact h
      | some n =>
        simp only [hx] at h ⊢
        cases hp : n.parent_id with
        | none =>
          simp only [hp] at h ⊢
          exact h
        | some p =>
          simp only [hp] at h ⊢
          obtain ⟨dq, hdq, hd⟩ := Option.map_eq_some'.mp h
          rw [ih hdq g (by omega)]
          simp [hd]

theorem absolutePosFuel_stable {ns : List NodeState} {f : ℕ} {x : String} {d : ℕ}
    (h : parentDepthFuel ns f x = some d) :
    ∀ g g', d < g → d < g' → absolutePosFuel ns g x = absolutePosFuel ns g' x := by
  induction f generalizing x d with
  | zero => exact absurd h (by simp [parentDepthFuel])
  | succ f ih =>
    intro g g' hg hg'
    cases g with
    | zero => omega
    | succ g =>
      cases g' with
      | zero => omega
      | succ g' =>
        rw [parentDepthFuel_succ] at h
        rw [absolutePosFuel_succ, absolutePosFuel_succ]
        cases hx : getNodeL ns x with
        | none => simp only [hx]
        | some n =>
          simp only [hx] at h ⊢
          cases hp : n.parent_id with
          | none => simp only [hp]
          | some p =>
            simp only [hp] at h ⊢
            obtain ⟨dq, hdq, hd⟩ := Option.map_eq_some'.mp h
            rw [ih hdq g g' (by omega) (by omega)]

theorem isDescendantFuel_stable {ns : List NodeState} {f : ℕ} {x : String} {d : ℕ}
    (h : parentDepthFuel ns f x = some d) (anc : String) :
    ∀ g g', d < g → d < g' → isDescendantFuel ns g x anc = isDescendantFuel ns g' x anc := by
  induction f generalizing x d with
  | zero => exact absurd h (by simp [parentDepthFuel])
  | succ f ih =>
    intro g g' hg hg'
    cases g with
    | zero => omega
    | succ g =>
      cases g' with
      | zero => omega
      | succ g' =>
        rw [parentDepthFuel_succ] at h
        rw [isDescendantFuel_succ, isDescendantFuel_succ]
        cases hx : getNodeL ns x with
        | none => simp only [hx]
        | some n =>
          simp only [hx] at h ⊢
          cases hp : n.parent_id with
          | none => simp only [hp]
          | some p =>
            simp only [hp] at h ⊢
            obtain ⟨dq, hdq, hd⟩ := Option.map_eq_some'.mp h
            by_cases hpa : p = anc
            · rw [if_pos hpa, if_pos hpa]
            · rw [if_neg hpa, if_neg hpa, ih hdq g g' (by omega) (by omega)]

/-- In an acyclic graph every id — present or not — has a finite chain depth,
bounded by the number of nodes. -/
theorem depth_exists {ns : List NodeState} (hacyc : Acyclic ns) (x : String) :
    ∃ d, d ≤ ns.length ∧ parentDepthFuel ns (ns.length + 1) x = some d := by
  cases hx : getNodeL ns x with
  | none =>
    refine ⟨0, Nat.zero_le _, ?_⟩
    rw [parentDepthFuel_succ, hx]
  | some n =>
    obtain ⟨hmem, hid⟩ := getNodeL_mem hx
    have hs := hacyc n hmem
    rw [hid] at hs
    obtain ⟨d, hd⟩ := Option.isSome_iff_exists.mp hs
    exact ⟨d, by have := parentDepthFuel_lt hd; omega, hd⟩

theorem updateFirst_length (ns : List NodeState) (node_id : String) (f : NodeState → NodeState) :
    (updateFirst ns node_id f).length = ns.length := by
  induction ns with
  | nil => rfl
  | cons m rest ih =>
    unfold updateFirst
    split
    · rfl
    · simpa using ih

theorem getNodeL_cons (m : NodeState) (rest : List NodeState) (x : String) :
    getNodeL (m :: rest) x = if m.id = x then some m else getNodeL rest x := rfl

theorem updateFirst_cons (m : NodeState) (rest : List NodeState) (A : String)
    (f : NodeState → NodeState) :
    updateFirst (m :: rest) A f = if m.id = A then f m :: rest else m :: updateFirst rest A f :=
  rfl

theorem getNodeL_updateFirst (ns : List NodeState) (A : String) (f : NodeState → NodeState)
    (hf : ∀ n, (f n).id = n.id) (x : String) :
    getNodeL (updateFirst ns A f) x =
      if x = A then (getNodeL ns A).map f else getNodeL ns x := by
  induction ns with
  | nil =>
    show (none : Option NodeState) = if x = A then Option.map f none else none
    split <;> rfl
  | cons m rest ih =>
    rw [updateFirst_cons]
    by_cases hm : m.id = A
    · rw [if_pos hm]
      simp only [getNodeL_cons]
      have hfm : (f m).id = A := (hf m).trans hm
      by_cases hx : x = A
      · subst hx
        simp [hfm, hm]
      · have h1 : ¬(f m).id = x := by rw [hfm]; exact fun hh => hx hh.symm
        have h2 : ¬m.id = x := by rw [hm]; exact fun hh => hx hh.symm
        simp [h1, h2, hx]
    · rw [if_neg hm]
      simp only [getNodeL_cons]
      by_cases hmx : m.id = x
      · have hx : ¬x = A := fun hh => hm (hmx.trans hh)
        simp [hmx, hx]
      · simp only [if_neg hmx]
        rw [ih]
        by_cases hx : x = A
        · simp [hx, hm]
        · simp [hx]

/-- Nodes whose ancestor chain never passes through the updated node `A` keep
their chain depth, their non-descendant-of-`A` status, and their absolute
position when the first node with id `A` is rewritten in place. -/
theorem avoid_update (ns : List NodeState) (A : String) (f : NodeState → NodeState)
    (hf : ∀ n, (f n).id = n.id) :
    ∀ d x, parentDepthFuel ns (ns.length + 1) x = some d → x ≠ A →
      isDescendantFuel ns (ns.length + 1) x A = false →
      parentDepthFuel (updateFirst ns A f) (ns.length + 1) x = some d ∧
      isDescendantFuel (updateFirst ns A f) (ns.length + 1) x A = false ∧
      ∀ g, d < g → absolutePosFuel (updateFirst ns A f) g x = absolutePosFuel ns g x := by
  intro d
  induction d using Nat.strong_induction_on with
  | _ d ih =>
    intro x hdep hne hdesc
    have hns' : getNodeL (updateFirst ns A f) x = getNodeL ns x := by
      rw [getNodeL_updateFirst ns A f hf x, if_neg hne]
    rw [parentDepthFuel_succ] at hdep
    rw [isDescendantFuel_succ] at hdesc
    cases hx : getNodeL ns x with
    | none =>
      simp only [hx] at hdep
      refine ⟨?_, ?_, ?_⟩
      · rw [parentDepthFuel_succ]
        simp only [hns', hx]
        exact hdep
      · rw [isDescendantFuel_succ]
        simp only [hns', hx]
      · intro g hg
        cases g with
        | zero => rfl
        | succ g =>
          rw [absolutePosFuel_succ, absolutePosFuel_succ]
          simp only [hns', hx]
    | some n =>
      simp only [hx] at hdep hdesc
      cases hp : n.parent_id with
      | none =>
        simp only [hp] at hdep hdesc
        refine ⟨?_, ?_, ?_⟩
        · rw [parentDepthFuel_succ]
          simp only [hns', hx, hp]
          exact hdep
        · rw [isDescendantFuel_succ]
          simp only [hns', hx, hp]
        · intro g hg
          cases g with
          | zero => omega
          | succ g =>
            rw [absolutePosFuel_succ, absolutePosFuel_succ]
            simp only [hns', hx, hp]
      | some q =>
        simp only [hp] at hdep hdesc
        obtain ⟨dq, hdq, hd⟩ := Option.map_eq_some'.mp hdep
        have hdq_lt : dq < ns.length := parentDepthFuel_lt hdq
        have hqA : q ≠ A := by
          intro hh
          rw [if_pos hh] at hdesc
          exact Bool.noConfusion hdesc
        rw [if_neg hqA] at hdesc
        have hdq' : parentDepthFuel ns (ns.length + 1) q = some dq :=
          parentDepthFuel_stable hdq _ (by omega)
        have hdesc_q : isDescendantFuel ns (ns.length + 1) q A = false :=
          (isDescendantFuel_stable hdq' A (ns.length + 1) ns.length (by omega) hdq_lt).trans
            hdesc
        obtain ⟨ihdep, ihdesc, ihabs⟩ := ih dq (by omega) q hdq' hqA hdesc_q
        refine ⟨?_, ?_, ?_⟩
        · rw [parentDepthFuel_succ]
          simp only [hns', hx, hp]
          rw [parentDepthFuel_stable ihdep ns.length hdq_lt]
          simp [hd]
        · rw [isDescendantFuel_succ]
          simp only [hns', hx, hp]
          rw [if_neg hqA]
          exact (isDescendantFuel_stable ihdep A ns.length (ns.length + 1) hdq_lt
            (by omega)).trans ihdesc
        · intro g hg
          cases g with
          | zero => omega
          | succ g =>
            rw [absolutePosFuel_succ, absolutePosFuel_succ]
            simp only [hns', hx, hp]
            rw [ihabs g (by omega)]

/-- The node being reparented itself: after the in-place update its absolute
position (at any sufficient fuel) equals its absolute position before the
update, and its new chain depth is bounded by `|nodes| + 1`. -/
theorem reparent_absA (ns : List NodeState) (A : String) (P : Option String) (npos : Position)
    (a : NodeState) (ha : getNodeL ns A = some a) (hacyc : Acyclic ns)
    (hP : ∀ p, P = some p → p ≠ A ∧ isDescendantFuel ns (ns.length + 1) p A = false ∧
      npos = absolutePosFuel ns (chainFuel ns) A - absolutePosFuel ns (chainFuel ns) p)
    (hnone : P = none →
      npos = if a.parent_id.isSome then absolutePosFuel ns (chainFuel ns) A else a.position) :
    (∀ g, ns.length + 2 ≤ g →
      absolutePosFuel (updateFirst ns A fun n => { n with position := npos, parent_id := P }) g
        A = absolutePosFuel ns (chainFuel ns) A) ∧
    (∃ dA, dA ≤ ns.length + 1 ∧ ∀ g, dA < g →
      parentDepthFuel (updateFirst ns A fun n => { n with position := npos, parent_id := P }) g
        A = some dA) := by
  have hf : ∀ n : NodeState, ({ n with position := npos, parent_id := P } : NodeState).id = n.id :=
    fun _ => rfl
  have hns'A :
      getNodeL (updateFirst ns A fun n => { n with position := npos, parent_id := P }) A =
        some { a with position := npos, parent_id := P } := by
    rw [getNodeL_updateFirst ns A _ hf A, if_pos rfl, ha]
    rfl
  cases P with
  | none =>
    have hnp := hnone rfl
    constructor
    · intro g hg
      cases g with
      | zero => omega
      | succ g =>
        rw [absolutePosFuel_succ]
        simp only [hns'A]
        rw [hnp]
        cases hap : a.parent_id with
        | some q =>
          simp [hap]
        | none =>
          simp only [hap, Option.isSome_none, Bool.false_eq_true, if_false]
          have hCF : chainFuel ns = (2 * ns.length + 2) + 1 := rfl
          rw [hCF, absolutePosFuel_succ]
          simp only [ha, hap]
    · refine ⟨0, by omega, fun g hg => ?_⟩
      cases g with
      | zero => omega
      | succ g =>
        rw [parentDepthFuel_succ]
        simp only [hns'A]
  | some p =>
    obtain ⟨hpne, hpdesc, hnposeq⟩ := hP p rfl
    obtain ⟨dp, hdp_le, hdp⟩ := depth_exists hacyc p
    obtain ⟨ihdep, _, ihabs⟩ := avoid_update ns A _ hf dp p hdp hpne hpdesc
    constructor
    · intro g hg
      cases g with
      | zero => omega
      | succ g =>
        rw [absolutePosFuel_succ]
        simp only [hns'A]
        rw [ihabs g (by omega)]
        rw [absolutePosFuel_stable hdp g (chainFuel ns) (by omega)
          (by unfold chainFuel; omega)]
        rw [hnposeq, Position.sub_def, Position.add_def]
        ext <;> simp
    · refine ⟨dp + 1, by omega, fun g hg => ?_⟩
      cases g with
      | zero => omega
      | succ g =>
        rw [parentDepthFuel_succ]
        simp only [hns'A]
        rw [parentDepthFuel_stable ihdep g (by omega)]
        rfl

/-- Re-basing preserves every node's absolute position: updating node `A` to
parent `P` with the re-based position leaves `absolutePosFuel` (at the
canonical fuel) unchanged for every id, and every chain in the updated list
still terminates. -/
theorem reparent_abs_all (ns : List NodeState) (A : String) (P : Option String) (npos : Position)
    (a : NodeState) (ha : getNodeL ns A = some a) (hacyc : Acyclic ns)
    (hP : ∀ p, P = some p → p ≠ A ∧ isDescendantFuel ns (ns.length + 1) p A = false ∧
      npos = absolutePosFuel ns (chainFuel ns) A - absolutePosFuel ns (chainFuel ns) p)
    (hnone : P = none →
      npos = if a.parent_id.isSome then absolutePosFuel ns (chainFuel ns) A else a.position) :
    ∀ d D, parentDepthFuel ns (ns.length + 1) D = some d →
      absolutePosFuel (updateFirst ns A fun n => { n with position := npos, parent_id := P })
          (chainFuel ns) D = absolutePosFuel ns (chainFuel ns) D ∧
      ∃ d', d' ≤ ns.length + 1 + d ∧ ∀ g, d' < g →
        parentDepthFuel (updateFirst ns A fun n => { n with position := npos, parent_id := P })
          g D = some d' := by
  have hf : ∀ n : NodeState, ({ n with position := npos, parent_id := P } : NodeState).id = n.id :=
    fun _ => rfl
  intro d
  induction d using Nat.strong_induction_on with
  | _ d ih =>
    intro D hdep
    by_cases hDA : D = A
    · subst hDA
      obtain ⟨habsA, dA, hdA_le, hdepA⟩ := reparent_absA ns D P npos a ha hacyc hP hnone
      exact ⟨habsA (chainFuel ns) (by unfold chainFuel; omega), dA, by omega, hdepA⟩
    · have hns' :
          getNodeL (updateFirst ns A fun n => { n with position := npos, parent_id := P }) D =
            getNodeL ns D := by
        rw [getNodeL_updateFirst ns A _ hf D, if_neg hDA]
      have hCF : chainFuel ns = (2 * ns.length + 2) + 1 := rfl
      rw [parentDepthFuel_succ] at hdep
      cases hx : getNodeL ns D with
      | none =>
        simp only [hx] at hdep
        constructor
        · rw [hCF, absolutePosFuel_succ, absolutePosFuel_succ]
          simp only [hns', hx]
        · refine ⟨0, by omega, fun g hg => ?_⟩
          cases g with
          | zero => omega
          | succ g =>
            rw [parentDepthFuel_succ]
            simp only [hns', hx]
      | some n =>
        simp only [hx] at hdep
        cases hp : n.parent_id with
        | none =>
          simp only [hp] at hdep
          constructor
          · rw [hCF, absolutePosFuel_succ, absolutePosFuel_succ]
            simp only [hns', hx, hp]
          · refine ⟨0, by omega, fun g hg => ?_⟩
            cases g with
            | zero => omega
            | succ g =>
              rw [parentDepthFuel_succ]
              simp only [hns', hx, hp]
        | some q =>
          simp only [hp] at hdep
          obtain ⟨dq, hdq, hd⟩ := Option.map_eq_some'.mp hdep
          have hdq_lt : dq < ns.length := parentDepthFuel_lt hdq
          have hdq' : parentDepthFuel ns (ns.length + 1) q = some dq :=
            parentDepthFuel_stable hdq _ (by omega)
          obtain ⟨habs_q, d'q, hd'q_le, hdep'_q⟩ := ih dq (by omega) q hdq'
          constructor
          · rw [hCF, absolutePosFuel_succ, absolutePosFuel_succ]
            simp only [hns', hx, hp]
            congr 1
            have e1 := absolutePosFuel_stable (hdep'_q (d'q + 1) (by omega))
              (2 * ns.length + 2) (chainFuel ns) (by omega) (by unfold chainFuel; omega)
            have e2 := absolutePosFuel_stable hdq' (2 * ns.length + 2) (chainFuel ns)
              (by omega) (by unfold chainFuel; omega)
            rw [e1, e2, habs_q]
          · refine ⟨d'q + 1, by omega, fun g hg => ?_⟩
            cases g with
            | zero => omega
            | succ g =>
              rw [parentDepthFuel_succ]
              simp only [hns', hx, hp]
              rw [hdep'_q g (by omega)]
              rfl

theorem isDescendantOf_pushSnapshot (s : FlowState) (x y : String) :
    isDescendantOf (pushSnapshot s) x y = isDescendantOf s x y := by
  unfold isDescendantOf
  rw [pushSnapshot_nodes]

theorem getAbsolutePosition_pushSnapshot (s : FlowState) (x : String) :
    getAbsolutePosition (pushSnapshot s) x = getAbsolutePosition s x := by
  unfold getAbsolutePosition
  rw [pushSnapshot_nodes]

/-- The node list produced by an accepted `setNodeParent(A, some p)`. -/
theorem setNodeParent_nodes_some (s : FlowState) (A p : String) (a : NodeState)
    (ha : getNodeL s.nodes A = some a) (hguard : isDescendantOf s p A = false) :
    (setNodeParent s A (some p)).nodes =
      updateFirst s.nodes A fun n =>
        { n with
          position := getAbsolutePosition s A - getAbsolutePosition s p
          parent_id := some p } := by
  unfold setNodeParent setNodeParentInternal
  simp only [pushSnapshot_nodes, isDescendantOf_pushSnapshot, getAbsolutePosition_pushSnapshot,
    ha, hguard, Bool.false_eq_true, if_false]

/-- The node list produced by `setNodeParent(A, none)`. -/
theorem setNodeParent_nodes_none (s : FlowState) (A : String) (a : NodeState)
    (ha : getNodeL s.nodes A = some a) :
    (setNodeParent s A none).nodes =
      updateFirst s.nodes A fun n =>
        { n with
          position := if a.parent_id.isSome then getAbsolutePosition s A else a.position
          parent_id := none } := by
  unfold setNodeParent setNodeParentInternal
  simp only [pushSnapshot_nodes, getAbsolutePosition_pushSnapshot, ha]
  by_cases hap : a.parent_id.isSome
  · simp only [hap, if_true]
  · simp only [hap, Bool.false_eq_true, if_false]

/-- C2 (amended).  For a node `A` present in an acyclic graph and an accepted
call `setNodeParent(A, P)` where `P` — when it names a node — is neither `A`
itself nor a descendant of `A`, the absolute canvas position computed by
`getAbsolutePosition` is the same before and after the call, for `A` and for
every descendant of `A`: re-basing between parent-relative and absolute
coordinates is lossless and preserves visual position.  (The claim as frozen
also covered `P = A`; the code accepts that call and corrupts the hierarchy —
see the counterexample — so it is excluded here.) -/
theorem C2_reparent_preserves_absolute (s : FlowState) (A : String) (P : Option String)
    (a : NodeState) (ha : getNodeL s.nodes A = some a) (hacyc : Acyclic s.nodes)
    (hP : ∀ p, P = some p → p ≠ A ∧ isDescendantOf s p A = false) :
    ∀ D, D = A ∨ isDescendantOf s D A = true →
      getAbsolutePosition (setNodeParent s A P) D = getAbsolutePosition s D := by
  intro D _
  obtain ⟨d, hd_le, hdep⟩ := depth_exists hacyc D
  cases P with
  | none =>
    have hnodes := setNodeParent_nodes_none s A a ha
    show absolutePosFuel (setNodeParent s A none).nodes
      (chainFuel (setNodeParent s A none).nodes) D = _
    rw [hnodes]
    have hlen : chainFuel (updateFirst s.nodes A fun n =>
        { n with
          position := if a.parent_id.isSome then getAbsolutePosition s A else a.position
          parent_id := none }) = chainFuel s.nodes := by
      unfold chainFuel
      rw [updateFirst_length]
    rw [hlen]
    exact (reparent_abs_all s.nodes A none
      (if a.parent_id.isSome then getAbsolutePosition s A else a.position) a ha hacyc
      (fun p hp => Option.noConfusion hp)
      (fun _ => rfl) d D hdep).1
  | some p =>
    obtain ⟨hpne, hpdesc⟩ := hP p rfl
    have hnodes := setNodeParent_nodes_some s A p a ha hpdesc
    show absolutePosFuel (setNodeParent s A (some p)).nodes
      (chainFuel (setNodeParent s A (some p)).nodes) D = _
    rw [hnodes]
    have hlen : chainFuel (updateFirst s.nodes A fun n =>
        { n with
          position := getAbsolutePosition s A - getAbsolutePosition s p
          parent_id := some p }) = chainFuel s.nodes := by
      unfold chainFuel
      rw [updateFirst_length]
    rw [hlen]
    obtain ⟨dp, hdp_le, hdp⟩ := depth_exists hacyc p
    have hpdesc' : isDescendantFuel s.nodes (s.nodes.length + 1) p A = false :=
      (isDescendantFuel_stable hdp A (s.nodes.length + 1) (chainFuel s.nodes) (by omega)
        (by unfold chainFuel; omega)).trans hpdesc
    exact (reparent_abs_all s.nodes A (some p)
      (getAbsolutePosition s A - getAbsolutePosition s p) a ha hacyc
      (fun p' hp' => by
        injection hp' with hp'
        subst hp'
        exact ⟨hpne, hpdesc', rfl⟩)
      (fun hn => Option.noConfusion hn) d D hdep).1

/-- C2, counterexample.  `setNodeParent("a", "a")` is an accepted call whose
candidate parent is not a descendant of `"a"` (the claim's acceptance
condition), yet it changes the node's absolute position: the node becomes its
own parent, the source's `getAbsolutePosition` diverges, and the fuelled
embedding yields the origin instead of the original `(5, 5)`. -/
theorem C2_counterexample :
    isDescendantOf C2state "a" "a" = false ∧
    getAbsolutePosition (setNodeParent C2state "a" (some "a")) "a" ≠
      getAbsolutePosition C2state "a" := by
  constructor
  · decide
  · have h1 : getAbsolutePosition C2state "a" = ⟨5, 5⟩ := rfl
    have h2 : getAbsolutePosition (setNodeParent C2state "a" (some "a")) "a" = ⟨0, 0⟩ := by
      norm_num [getAbsolutePosition, setNodeParent, setNodeParentInternal, isDescendantOf,
        isDescendantFuel, pushSnapshot, jsSlice, toJSON, nodeToFlow, edgeSerialize, updateFirst,
        getNodeL, absolutePosFuel, chainFuel, C2state, state0, mkNode, cfg0,
        Position.add_def, Position.sub_def, Position.ext_iff]
    rw [h1, h2]
    intro hh
    injection hh with hx hy
    exact absurd hx (by norm_num)

theorem C2_witness :
    getAbsolutePosition (setNodeParent C2wit "c" (some "h")) "c" =
      getAbsolutePosition C2wit "c" :=
  C2_reparent_preserves_absolute C2wit "c" (some "h") (mkNode "c" ⟨5, 5⟩ (some "g"))
    (by decide) (by decide)
    (fun p hp => by
      injection hp with hp
      subst hp
      exact ⟨by decide, by decide⟩)
    "c" (Or.inl rfl)

theorem toDigitsCore_eq_decRepr (f n : ℕ) (acc : List Char) (h : n < f) :
    Nat.toDigitsCore 10 f n acc = decRepr n ++ acc := by
  induction f generalizing n acc with
  | zero => omega
  | succ f ih =>
    show (if n / 10 = 0 then Nat.digitChar (n % 10) :: acc
      else Nat.toDigitsCore 10 f (n / 10) (Nat.digitChar (n % 10) :: acc)) = decRepr n ++ acc
    by_cases h10 : n / 10 = 0
    · have hn10 : n < 10 := (Nat.div_eq_zero_iff (by omega)).mp h10

      rw [if_pos h10, decRepr, dif_pos hn10, Nat.mod_eq_of_lt hn10]
      rfl
    · have hn10 : ¬n < 10 := fun hh => h10 (Nat.div_eq_of_lt hh)
      have hlt : n / 10 < f := by
        have := Nat.div_lt_self (by omega : 0 < n) (by omega : 1 < 10)
        omega
      rw [if_neg h10, ih (n / 10) (Nat.digitChar (n % 10) :: acc) hlt]
      conv_rhs => rw [decRepr]
      rw [dif_neg hn10, List.append_assoc]
      rfl

theorem digitChar_toNat {d : ℕ} (h : d < 10) : (Nat.digitChar d).toNat - 48 = d := by
  interval_cases d <;> decide

theorem digitsVal_decRepr (n : ℕ) : digitsVal (decRepr n) = n := by
  induction n using Nat.strong_induction_on with
  | _ n ih =>
    by_cases h : n < 10
    · rw [decRepr, dif_pos h]
      show 10 * 0 + ((Nat.digitChar n).toNat - 48) = n
      rw [digitChar_toNat h]
      omega
    · rw [decRepr, dif_neg h]
      unfold digitsVal
      rw [List.foldl_append]
      show 10 * digitsVal (decRepr (n / 10)) + ((Nat.digitChar (n % 10)).toNat - 48) = n
      rw [ih (n / 10) (Nat.div_lt_self (by omega) (by omega)),
        digitChar_toNat (Nat.mod_lt n (by omega))]
      omega

theorem repr_eq_decRepr (n : ℕ) : Nat.repr n = (decRepr n).asString := by
  show (Nat.toDigitsCore 10 (n + 1) n []).asString = (decRepr n).asString
  rw [toDigitsCore_eq_decRepr (n + 1) n [] (by omega), List.append_nil]

theorem nat_repr_injective : Function.Injective Nat.repr := by
  intro m n h
  rw [repr_eq_decRepr, repr_eq_decRepr] at h
  have h2 : decRepr m = decRepr n := by
    have := congrArg String.data h
    simpa [List.asString] using this
  have h3 := congrArg digitsVal h2
  rwa [digitsVal_decRepr, digitsVal_decRepr] at h3

/-! ### Fresh id generation -/

theorem firstFreeId_ge (ids : List String) (fuel k : ℕ) : k ≤ firstFreeId ids fuel k := by
  induction fuel generalizing k with
  | zero => exact Nat.le_refl k
  | succ fuel ih =>
    show k ≤ if Nat.repr k ∈ ids then firstFreeId ids fuel (k + 1) else k
    split
    · exact Nat.le_trans (by omega) (ih (k + 1))
    · exact Nat.le_refl k

theorem firstFreeId_not_mem (ids : List String) (fuel k : ℕ)
    (h : ∃ j, j < fuel ∧ Nat.repr (k + j) ∉ ids) :
    Nat.repr (firstFreeId ids fuel k) ∉ ids := by
  induction fuel generalizing k with
  | zero =>
    obtain ⟨j, hj, _⟩ := h
    omega
  | succ fuel ih =>
    show Nat.repr (if Nat.repr k ∈ ids then firstFreeId ids fuel (k + 1) else k) ∉ ids
    by_cases hc : Nat.repr k ∈ ids
    · rw [if_pos hc]
      apply ih
      obtain ⟨j, hj, hnm⟩ := h
      cases j with
      | zero => exact absurd hc (by simpa using hnm)
      | succ j =>
        refine ⟨j, by omega, ?_⟩
        have he : k + (j + 1) = (k + 1) + j := by omega
        rwa [he] at hnm
    · rw [if_neg hc]
      exact hc

theorem exists_free_id (ids : List String) (k fuel : ℕ) (hlen : ids.length < fuel) :
    ∃ j, j < fuel ∧ Nat.repr (k + j) ∉ ids := by
  by_contra hcon
  push_neg at hcon
  have hsub : (Finset.range fuel).image (fun j => Nat.repr (k + j)) ⊆ ids.toFinset := by
    intro x hx
    simp only [Finset.mem_image, Finset.mem_range] at hx
    obtain ⟨j, hj, rfl⟩ := hx
    exact List.mem_toFinset.mpr (hcon j hj)
  have hinj : Function.Injective fun j => Nat.repr (k + j) := by
    intro a b hab
    have := nat_repr_injective hab
    omega
  have hcard : ((Finset.range fuel).image (fun j => Nat.repr (k + j))).card = fuel := by
    rw [Finset.card_image_of_injective _ hinj, Finset.card_range]
  have h1 := Finset.card_le_card hsub
  have h2 : ids.toFinset.card ≤ ids.length := ids.toFinset_card_le
  omega

theorem generateNodeId_spec (s : FlowState) :
    ∃ k, generateNodeId s = (Nat.repr k, { s with next_node_id := k + 1 }) ∧
      s.next_node_id ≤ k ∧ Nat.repr k ∉ s.nodes.map NodeState.id := by
  refine ⟨firstFreeId (s.nodes.map (·.id)) (s.nodes.length + 1) s.next_node_id, rfl,
    firstFreeId_ge _ _ _, ?_⟩
  exact firstFreeId_not_mem _ _ _
    (exists_free_id _ _ _ (by rw [List.length_map]; omega))

theorem genIds_fields (s : FlowState) (l : List FlowNode) :
    (genIds s l).1.nodes = s.nodes ∧ (genIds s l).1.edges = s.edges ∧
    (genIds s l).1.config = s.config ∧ (genIds s l).1.clipboard = s.clipboard := by
  induction l generalizing s with
  | nil => exact ⟨rfl, rfl, rfl, rfl⟩
  | cons n rest ih =>
    have h1 : (genIds s (n :: rest)).1 = (genIds (generateNodeId s).2 rest).1 := rfl
    rw [h1]
    exact ih (generateNodeId s).2

theorem genIds_map_fst (s : FlowState) (l : List FlowNode) :
    (genIds s l).2.map Prod.fst = l.map FlowNode.id := by
  induction l generalizing s with
  | nil => rfl
  | cons n rest ih =>
    have h1 : (genIds s (n :: rest)).2 =
        (n.id, (generateNodeId s).1) :: (genIds (generateNodeId s).2 rest).2 := rfl
    rw [h1, List.map_cons, List.map_cons, ih (generateNodeId s).2]

theorem genIds_length (s : FlowState) (l : List FlowNode) :
    (genIds s l).2.length = l.length := by
  have := congrArg List.length (genIds_map_fst s l)
  simpa using this

theorem genIds_snd_spec (s : FlowState) (l : List FlowNode) :
    (∀ x ∈ (genIds s l).2.map Prod.snd,
      (∃ k, x = Nat.repr k ∧ s.next_node_id ≤ k) ∧ x ∉ s.nodes.map NodeState.id) ∧
    ((genIds s l).2.map Prod.snd).Nodup := by
  induction l generalizing s with
  | nil => exact ⟨by simp [genIds], by simp [genIds]⟩
  | cons n rest ih =>
    obtain ⟨k, hgen, hk_ge, hk_free⟩ := generateNodeId_spec s
    have h1 : (genIds s (n :: rest)).2 =
        (n.id, (generateNodeId s).1) :: (genIds (generateNodeId s).2 rest).2 := rfl
    have h2 : (generateNodeId s).1 = Nat.repr k := by rw [hgen]
    have h3 : (generateNodeId s).2 = { s with next_node_id := k + 1 } := by rw [hgen]
    obtain ⟨ihmem, ihnodup⟩ := ih (generateNodeId s).2
    constructor
    · intro x hx
      rw [h1] at hx
      simp only [List.map_cons, List.mem_cons] at hx
      cases hx with
      | inl hh =>
        subst hh
        exact ⟨⟨k, h2, hk_ge⟩, h2 ▸ hk_free⟩
      | inr hh =>
        obtain ⟨⟨k', hk', hk'_ge⟩, hfree⟩ := ihmem x hh
        rw [h3] at hk'_ge
        refine ⟨⟨k', hk', by simp at hk'_ge; omega⟩, ?_⟩
        have : ((generateNodeId s).2).nodes = s.nodes := by rw [h3]
        rwa [this] at hfree
    · rw [h1, List.map_cons]
      refine List.Nodup.cons ?_ ihnodup
      intro hmem
      obtain ⟨⟨k', hk', hk'_ge⟩, _⟩ := ihmem _ hmem
      rw [h2] at hk'
      have hkk : k = k' := nat_repr_injective hk'
      rw [h3] at hk'_ge
      simp at hk'_ge
      omega

/-! ### The old→new id map -/

theorem find_nodupkeys {l : List (String × String)} (h : (l.map Prod.fst).Nodup)
    {k v : String} (hm : (k, v) ∈ l) :
    l.find? (fun kv => decide (kv.1 = k)) = some (k, v) := by
  induction l with
  | nil => cases hm
  | cons a rest ih =>
    simp only [List.map_cons, List.nodup_cons] at h
    rcases List.mem_cons.mp hm with hh | hh
    · subst hh
      rw [List.find?_cons_of_pos _ (by simp)]
    · have hk : ¬a.1 = k := by
        intro hak
        exact h.1 (hak ▸ (List.mem_map.mpr ⟨(k, v), hh, rfl⟩))
      rw [List.find?_cons_of_neg _ (by simpa using hk)]
      exact ih h.2 hh

theorem jsMapGet_eq {l : List (String × String)} (h : (l.map Prod.fst).Nodup)
    {k v : String} (hm : (k, v) ∈ l) : jsMapGet l k = some v := by
  unfold jsMapGet
  have hrev : (l.reverse.map Prod.fst).Nodup := by
    rw [List.map_reverse]
    exact List.nodup_reverse.mpr h
  rw [find_nodupkeys hrev (List.mem_reverse.mpr hm)]
  rfl

theorem jsMapGet_none {l : List (String × String)} {k : String}
    (h : k ∉ l.map Prod.fst) : jsMapGet l k = none := by
  unfold jsMapGet
  rw [List.find?_eq_none.mpr]
  · rfl
  · intro x hx
    simp only [decide_eq_true_eq]
    intro hxk
    exact h (List.mem_map.mpr ⟨x, List.mem_reverse.mp hx, hxk⟩)

theorem jsSetFromArray_of_nodup (l : List String) (h : l.Nodup) : jsSetFromArray l = l := by
  induction l with
  | nil => rw [jsSetFromArray]
  | cons a rest ih =>
    rw [jsSetFromArray]
    have hfilter : rest.filter (fun b => decide (b ≠ a)) = rest := by
      apply List.filter_eq_self.mpr
      intro b hb
      simp only [decide_eq_true_eq]
      intro hba
      exact (List.nodup_cons.mp h).1 (hba ▸ hb)
    rw [hfilter, ih (List.nodup_cons.mp h).2]

/-! ### Characterizing `paste` -/

/-- The state produced by an effective `paste`, spelled out. -/
theorem paste_eq (s : FlowState) (pos : Option Position) (data : Flow)
    (hclip : s.clipboard = some data) (hne : data.nodes ≠ [])
    (hlock : s.config.locked = false) :
    paste s pos none =
      { (genIds (pushSnapshot s) data.nodes).1 with
        nodes := (genIds (pushSnapshot s) data.nodes).1.nodes ++
          (pasteNewNodes data (pasteOffset data (pos.getD ⟨100, 100⟩))
            (genIds (pushSnapshot s) data.nodes).2).map flowNodeToState
        edges := (genIds (pushSnapshot s) data.nodes).1.edges ++
          pasteNewEdges data (pasteOffset data (pos.getD ⟨100, 100⟩))
            (genIds (pushSnapshot s) data.nodes).2 s.config.default_edge_type
        selected_node_ids := jsSetFromArray
          ((pasteNewNodes data (pasteOffset data (pos.getD ⟨100, 100⟩))
            (genIds (pushSnapshot s) data.nodes).2).map FlowNode.id)
        selected_edge_ids := [] } := by
  have hie : data.nodes.isEmpty = false := by
    cases hn : data.nodes with
    | nil => exact absurd hn hne
    | cons a l => rfl
  simp only [paste, Option.orElse, hclip, hie, hlock, Bool.false_eq_true, if_false]

theorem pasteNewNodes_length (data : Flow) (offset : Position)
    (id_map : List (String × String))
    (hlen : (id_map.map Prod.snd).length = data.nodes.length) :
    (pasteNewNodes data offset id_map).length = data.nodes.length := by
  unfold pasteNewNodes
  rw [List.length_map, List.length_zip, hlen, min_self]

theorem pasteNewNodes_map_id (data : Flow) (offset : Position)
    (id_map : List (String × String))
    (hlen : (id_map.map Prod.snd).length = data.nodes.length) :
    (pasteNewNodes data offset id_map).map FlowNode.id = id_map.map Prod.snd := by
  refine Eq.trans ?_ (List.map_snd_zip data.nodes (id_map.map Prod.snd) (le_of_eq hlen))
  unfold pasteNewNodes
  rw [List.map_map]
  congr 1

theorem pasteNewEdges_length (data : Flow) (offset : Position)
    (id_map : List (String × String)) (default_type : Option EdgeType) :
    (pasteNewEdges data offset id_map default_type).length = data.edges.length := by
  unfold pasteNewEdges
  rw [List.length_map]

theorem pasteNewNodes_getElem (data : Flow) (offset : Position)
    (id_map : List (String × String)) (i : ℕ) (hi : i < data.nodes.length)
    (hv : i < (id_map.map Prod.snd).length)
    (hb : i < (pasteNewNodes data offset id_map).length) :
    (pasteNewNodes data offset id_map)[i] =
      { data.nodes[i] with
        id := (id_map.map Prod.snd)[i]
        position :=
          match (data.nodes[i]).parent_id with
          | some p =>
            if p ∈ data.nodes.map FlowNode.id then
              ⟨(data.nodes[i]).position.x, (data.nodes[i]).position.y⟩
            else (data.nodes[i]).position + offset
          | none => (data.nodes[i]).position + offset
        parent_id := (data.nodes[i]).parent_id.bind fun p => jsMapGet id_map p } := by
  simp only [pasteNewNodes, List.getElem_map, List.getElem_zip]

theorem pasteNewEdges_getElem (data : Flow) (offset : Position)
    (id_map : List (String × String)) (default_type : Option EdgeType) (m : ℕ)
    (hm : m < data.edges.length)
    (hb : m < (pasteNewEdges data offset id_map default_type).length) :
    (pasteNewEdges data offset id_map default_type)[m] =
      { data.edges[m] with
        id := "e-" ++ ((jsMapGet id_map (data.edges[m]).source).getD "") ++ "-" ++
          (data.edges[m]).source_handle ++ "-" ++
          ((jsMapGet id_map (data.edges[m]).target).getD "") ++ "-" ++
          (data.edges[m]).target_handle
        source := (jsMapGet id_map (data.edges[m]).source).getD ""
        target := (jsMapGet id_map (data.edges[m]).target).getD ""
        type := (data.edges[m]).type.orElse fun _ => default_type
        waypoints := (data.edges[m]).waypoints.map fun ws => ws.map (· + offset) } := by
  simp only [pasteNewEdges, List.getElem_map]

/-- The `j`-th binding of the id map built by `genIds` pairs the `j`-th
clipboard id with the `j`-th fresh id. -/
theorem genIds_pair_mem (s : FlowState) (l : List FlowNode) (j : ℕ) (hj : j < l.length) :
    ∀ hja : j < ((genIds s l).2.map Prod.snd).length,
      ((l[j]).id, ((genIds s l).2.map Prod.snd)[j]) ∈ (genIds s l).2 := by
  intro hja
  have hjm : j < (genIds s l).2.length := by
    rw [genIds_length]
    exact hj
  have hjf : j < ((genIds s l).2.map Prod.fst).length := by
    rw [List.length_map]
    exact hjm
  have hjl : j < (l.map FlowNode.id).length := by
    rw [List.length_map]
    exact hj
  have h1 : ((genIds s l).2[j]).1 = (l[j]).id := by
    have ha : ((genIds s l).2.map Prod.fst)[j] = ((genIds s l).2[j]).1 :=
      List.getElem_map Prod.fst
    have hb : ((genIds s l).2.map Prod.fst)[j] = (l.map FlowNode.id)[j] := by
      have := genIds_map_fst s l
      simp only [this]
    have hc : (l.map FlowNode.id)[j] = (l[j]).id := List.getElem_map FlowNode.id
    rw [← ha, hb, hc]
  have h2 : ((genIds s l).2.map Prod.snd)[j] = ((genIds s l).2[j]).2 :=
    List.getElem_map Prod.snd
  have h3 : ((l[j]).id, ((genIds s l).2.map Prod.snd)[j]) = (genIds s l).2[j] := by
    rw [← h1, h2]
  rw [h3]
  exact List.getElem_mem hjm

/-- C8.  With a non-empty clipboard of duplicate-free node ids and an unlocked
engine, `paste(target)` appends a fresh copy of every clipboard node whose
newly generated ids are pairwise distinct and distinct from every pre-existing
node id; nodes whose original parent is also in the clipboard keep their
parent-relative position and have `parent_id` remapped through the old→new id
map, while top-level copied nodes are translated by the offset
`target − bounding-box-center of the top-level nodes` and lose their
`parent_id`; each copy keeps the original node's type, data, width, height and
z-index; every clipboard edge is re-inserted with both endpoint ids remapped,
its id regenerated as `e-<new source>-<source handle>-<new target>-<target
handle>` from the remapped endpoints, and its handles, label, style, animation
flag and color preserved; the newly created nodes become the entire node
selection and the edge selection is cleared.  `paste` is a complete no-op
when the clipboard is missing or empty, or when the engine is locked. -/
theorem C8_paste_spec (s : FlowState) (pos : Option Position) :
    (s.clipboard = none → paste s pos none = s) ∧
    (∀ data : Flow, s.clipboard = some data → data.nodes = [] → paste s pos none = s) ∧
    (∀ cd : Option Flow, s.config.locked = true → paste s pos cd = s) ∧
    (∀ data : Flow, s.clipboard = some data → data.nodes ≠ [] → s.config.locked = false →
      (data.nodes.map FlowNode.id).Nodup →
      ∃ (added : List FlowNode) (addedE : List FlowEdge),
        (paste s pos none).nodes = s.nodes ++ added.map flowNodeToState ∧
        (paste s pos none).edges = s.edges ++ addedE ∧
        added.length = data.nodes.length ∧
        addedE.length = data.edges.length ∧
        (added.map FlowNode.id).Nodup ∧
        (∀ x ∈ added.map FlowNode.id, x ∉ s.nodes.map NodeState.id) ∧
        (paste s pos none).selected_node_ids = added.map FlowNode.id ∧
        (paste s pos none).selected_edge_ids = [] ∧
        (∀ i, ∀ hi : i < data.nodes.length, ∀ hia : i < added.length,
          (added[i]).type = (data.nodes[i]).type ∧
          (added[i]).data = (data.nodes[i]).data ∧
          (added[i]).width = (data.nodes[i]).width ∧
          (added[i]).height = (data.nodes[i]).height ∧
          (added[i]).z_index = (data.nodes[i]).z_index ∧
          (∀ j, ∀ hj : j < data.nodes.length, ∀ hja : j < added.length,
            (data.nodes[i]).parent_id = some ((data.nodes[j]).id) →
            (added[i]).parent_id = some ((added[j]).id) ∧
            (added[i]).position = (data.nodes[i]).position) ∧
          ((∀ p, (data.nodes[i]).parent_id = some p → p ∉ data.nodes.map FlowNode.id) →
            (added[i]).parent_id = none ∧
            (added[i]).position = (data.nodes[i]).position +
              pasteOffset data (pos.getD ⟨100, 100⟩))) ∧
        (∀ m, ∀ hm : m < data.edges.length, ∀ hma : m < addedE.length,
          ∀ i, ∀ hi : i < data.nodes.length, ∀ hia : i < added.length,
          ∀ j, ∀ hj : j < data.nodes.length, ∀ hja : j < added.length,
          (data.edges[m]).source = (data.nodes[i]).id →
          (data.edges[m]).target = (data.nodes[j]).id →
          (addedE[m]).source = (added[i]).id ∧
          (addedE[m]).target = (added[j]).id ∧
          (addedE[m]).source_handle = (data.edges[m]).source_handle ∧
          (addedE[m]).target_handle = (data.edges[m]).target_handle ∧
          (addedE[m]).id = "e-" ++ (added[i]).id ++ "-" ++
            (data.edges[m]).source_handle ++ "-" ++ (added[j]).id ++ "-" ++
            (data.edges[m]).target_handle ∧
          (addedE[m]).label = (data.edges[m]).label ∧
          (addedE[m]).style = (data.edges[m]).style ∧
          (addedE[m]).animated = (data.edges[m]).animated ∧
          (addedE[m]).color = (data.edges[m]).color)) := by
  refine ⟨?_, ?_, ?_, ?_⟩
  · intro h
    simp only [paste, Option.orElse, h]
  · intro data hclip hnil
    simp [paste, Option.orElse, hclip, hnil]
  · intro cd h
    unfold paste
    split
    · rfl
    · simp [h]
  · intro data hclip hne hlock hnodup
    have hpe := paste_eq s pos data hclip hne hlock
    have hg := genIds_fields (pushSnapshot s) data.nodes
    have hvlen : ((genIds (pushSnapshot s) data.nodes).2.map Prod.snd).length =
        data.nodes.length := by
      rw [List.length_map, genIds_length]
    have hmapid := pasteNewNodes_map_id data (pasteOffset data (pos.getD ⟨100, 100⟩))
      (genIds (pushSnapshot s) data.nodes).2 hvlen
    have hsnd := genIds_snd_spec (pushSnapshot s) data.nodes
    have hkeys : (genIds (pushSnapshot s) data.nodes).2.map Prod.fst =
        data.nodes.map FlowNode.id := genIds_map_fst _ _
    have hkeysnodup : ((genIds (pushSnapshot s) data.nodes).2.map Prod.fst).Nodup := by
      rw [hkeys]
      exact hnodup
    have hlen_added := pasteNewNodes_length data (pasteOffset data (pos.getD ⟨100, 100⟩))
      (genIds (pushSnapshot s) data.nodes).2 hvlen
    refine ⟨pasteNewNodes data (pasteOffset data (pos.getD ⟨100, 100⟩))
        (genIds (pushSnapshot s) data.nodes).2,
      pasteNewEdges data (pasteOffset data (pos.getD ⟨100, 100⟩))
        (genIds (pushSnapshot s) data.nodes).2 s.config.default_edge_type,
      ?_, ?_, hlen_added, pasteNewEdges_length _ _ _ _, ?_, ?_, ?_, ?_, ?_, ?_⟩
    · rw [hpe]
      show (genIds (pushSnapshot s) data.nodes).1.nodes ++ _ = s.nodes ++ _
      rw [hg.1, pushSnapshot_nodes]
    · rw [hpe]
      show (genIds (pushSnapshot s) data.nodes).1.edges ++ _ = s.edges ++ _
      rw [hg.2.1, pushSnapshot_edges]
    · rw [hmapid]
      exact hsnd.2
    · rw [hmapid]
      intro x hx
      have := (hsnd.1 x hx).2
      rwa [pushSnapshot_nodes] at this
    · rw [hpe]
      show jsSetFromArray _ = _
      have : ((pasteNewNodes data (pasteOffset data (pos.getD ⟨100, 100⟩))
          (genIds (pushSnapshot s) data.nodes).2).map FlowNode.id).Nodup := by
        rw [hmapid]
        exact hsnd.2
      rw [jsSetFromArray_of_nodup _ this]
    · rw [hpe]
    · intro i hi hia
      have hvi : i < ((genIds (pushSnapshot s) data.nodes).2.map Prod.snd).length := by omega
      have hgi := pasteNewNodes_getElem data (pasteOffset data (pos.getD ⟨100, 100⟩))
        (genIds (pushSnapshot s) data.nodes).2 i hi hvi hia
      refine ⟨by rw [hgi], by rw [hgi], by rw [hgi], by rw [hgi], by rw [hgi], ?_, ?_⟩
      · intro j hj hja hpid
        have hvj : j < ((genIds (pushSnapshot s) data.nodes).2.map Prod.snd).length := by omega
        have hgj := pasteNewNodes_getElem data (pasteOffset data (pos.getD ⟨100, 100⟩))
          (genIds (pushSnapshot s) data.nodes).2 j hj hvj hja
        have hjid : (pasteNewNodes data (pasteOffset data (pos.getD ⟨100, 100⟩))
            (genIds (pushSnapshot s) data.nodes).2)[j].id =
            ((genIds (pushSnapshot s) data.nodes).2.map Prod.snd)[j] := by
          rw [hgj]
        constructor
        · rw [hgi]
          show ((data.nodes[i]).parent_id.bind fun p =>
            jsMapGet (genIds (pushSnapshot s) data.nodes).2 p) = _
          rw [hpid, hjid]
          show jsMapGet (genIds (pushSnapshot s) data.nodes).2 ((data.nodes[j]).id) = _
          exact jsMapGet_eq hkeysnodup
            (genIds_pair_mem (pushSnapshot s) data.nodes j hj hvj)
        · rw [hgi]
          show (match (data.nodes[i]).parent_id with
            | some p =>
              if p ∈ data.nodes.map FlowNode.id then
                (⟨(data.nodes[i]).position.x, (data.nodes[i]).position.y⟩ : Position)
              else (data.nodes[i]).position + pasteOffset data (pos.getD ⟨100, 100⟩)
            | none => (data.nodes[i]).position + pasteOffset data (pos.getD ⟨100, 100⟩)) = _
          rw [hpid]
          have hmem : (data.nodes[j]).id ∈ data.nodes.map FlowNode.id :=
            List.mem_map.mpr ⟨data.nodes[j], List.getElem_mem hj, rfl⟩
          simp only [if_pos hmem]
      · intro htop
        constructor
        · rw [hgi]
          show ((data.nodes[i]).parent_id.bind fun p =>
            jsMapGet (genIds (pushSnapshot s) data.nodes).2 p) = none
          cases hpid : (data.nodes[i]).parent_id with
          | none => rfl
          | some p =>
            show jsMapGet (genIds (pushSnapshot s) data.nodes).2 p = none
            apply jsMapGet_none
            rw [hkeys]
            exact htop p hpid
        · rw [hgi]
          show (match (data.nodes[i]).parent_id with
            | some p =>
              if p ∈ data.nodes.map FlowNode.id then
                (⟨(data.nodes[i]).position.x, (data.nodes[i]).position.y⟩ : Position)
              else (data.nodes[i]).position + pasteOffset data (pos.getD ⟨100, 100⟩)
            | none => (data.nodes[i]).position + pasteOffset data (pos.getD ⟨100, 100⟩)) = _
          cases hpid : (data.nodes[i]).parent_id with
          | none => rfl
          | some p =>
            simp only [if_neg (htop p hpid)]
    · intro m hm hma i hi hia j hj hja hsrc htgt
      have hE := pasteNewEdges_getElem data (pasteOffset data (pos.getD ⟨100, 100⟩))
        (genIds (pushSnapshot s) data.nodes).2 s.config.default_edge_type m hm hma
      have hvi : i < ((genIds (pushSnapshot s) data.nodes).2.map Prod.snd).length := by omega
      have hvj : j < ((genIds (pushSnapshot s) data.nodes).2.map Prod.snd).length := by omega
      have hgi := pasteNewNodes_getElem data (pasteOffset data (pos.getD ⟨100, 100⟩))
        (genIds (pushSnapshot s) data.nodes).2 i hi hvi hia
      have hgj := pasteNewNodes_getElem data (pasteOffset data (pos.getD ⟨100, 100⟩))
        (genIds (pushSnapshot s) data.nodes).2 j hj hvj hja
      have hsi : jsMapGet (genIds (pushSnapshot s) data.nodes).2 ((data.nodes[i]).id) =
          some (((genIds (pushSnapshot s) data.nodes).2.map Prod.snd)[i]) :=
        jsMapGet_eq hkeysnodup (genIds_pair_mem (pushSnapshot s) data.nodes i hi hvi)
      have hsj : jsMapGet (genIds (pushSnapshot s) data.nodes).2 ((data.nodes[j]).id) =
          some (((genIds (pushSnapshot s) data.nodes).2.map Prod.snd)[j]) :=
        jsMapGet_eq hkeysnodup (genIds_pair_mem (pushSnapshot s) data.nodes j hj hvj)
      refine ⟨?_, ?_, by rw [hE], by rw [hE], ?_, by rw [hE], by rw [hE], by rw [hE],
        by rw [hE]⟩
      · rw [hE]
        show (jsMapGet (genIds (pushSnapshot s) data.nodes).2 ((data.edges[m]).source)).getD ""
          = _
        rw [hsrc, hsi, hgi]
        rfl
      · rw [hE]
        show (jsMapGet (genIds (pushSnapshot s) data.nodes).2 ((data.edges[m]).target)).getD ""
          = _
        rw [htgt, hsj, hgj]
        rfl
      · rw [hE]
        show "e-" ++
            ((jsMapGet (genIds (pushSnapshot s) data.nodes).2 ((data.edges[m]).source)).getD "")
            ++ "-" ++ (data.edges[m]).source_handle ++ "-" ++
            ((jsMapGet (genIds (pushSnapshot s) data.nodes).2 ((data.edges[m]).target)).getD "")
            ++ "-" ++ (data.edges[m]).target_handle = _
        rw [hsrc, htgt, hsi, hsj, hgi, hgj]
        rfl

theorem C8_witness :
    (paste C8state none none).selected_edge_ids = [] ∧
    (paste C8state none none).nodes.length = C8state.nodes.length + 2 := by
  obtain ⟨added, addedE, h1, h2, h3, h4, h5, h6, h7, h8, h9, h10⟩ :=
    (C8_paste_spec C8state none).2.2.2 C8clip rfl (by decide) rfl (by decide)
  refine ⟨h8, ?_⟩
  rw [h1, List.length_append, List.length_map, h3]
  rfl

end Kaykay

